import Mathlib

/-!
Shallow embedding of `src/api/script/storage/postgresql-s3-storage.ts`
(class `PostgreSQLS3Storage`) over the relational schema given in the
repository's SQL file (tables `accounts`, `apps`, `deployments`, `packages`,
`blobs`, `access_keys`, `access_key_to_account_map`, `account_to_apps_map`).

The store is modelled as a record of tables, each an insertion-ordered list of
rows; SQL `rows[0]` is the first matching list element.  Every operation is a
pure function threading the store state explicitly and returning
`Except StorageError` for the promise's resolve/reject outcome; the state
component is the store after whatever statements executed before the failure,
mirroring the source's non-transactional sequential awaits.  JavaScript
`TypeError`s from dereferencing `undefined`, and PostgreSQL unique-constraint
violations, surface as `StorageError.unclassified` (errors outside the
storage error taxonomy).
-/

namespace CodePushStorage

/-- Permission strings of `storage.Permissions`: an app collaborator entry is
either the `Owner` or a plain `Collaborator`. -/
inductive Permission
  | Owner
  | Collaborator
deriving DecidableEq, Repr

/-- Error taxonomy of `storage.ErrorCode` as used by this file
(`NotFound`, `AlreadyExists`, `Expired`, `Invalid`). -/
inductive ErrorCode
  | NotFound
  | AlreadyExists
  | Expired
  | Invalid
deriving DecidableEq, Repr

/-- Rejection values: `code` is `storage.storageError(errorCode, message?)`
(the taxonomy); `unclassified` is any other JavaScript error that escapes to
the promise (a thrown `TypeError`, a `new Error(...)`, or a PostgreSQL
constraint violation). -/
inductive StorageError
  | code (c : ErrorCode) (message : Option String)
  | unclassified (message : String)
deriving DecidableEq, Repr

/-- Value of one entry of an app's `collaborators` JSONB map
(`storage.CollaboratorProperties`).  `isCurrentAccount` is the transient
request-scoped annotation; `none` models the property being absent. -/
structure CollaboratorProperties where
  accountId : String
  permission : Permission
  isCurrentAccount : Option Bool
deriving DecidableEq, Repr

/-- The `collaborators` JSONB object: a JavaScript object keyed by email,
modelled as an insertion-ordered association list with (by construction of
the operations) no duplicate keys. -/
abbrev CollaboratorMap := List (String × CollaboratorProperties)

/-- Row of the `accounts` table (columns used by the code). -/
structure Account where
  id : String
  name : String
  email : String
  gitHubId : String
deriving DecidableEq, Repr

/-- Row of the `apps` table (columns used by the code). -/
structure App where
  id : String
  name : String
  collaborators : CollaboratorMap
deriving DecidableEq, Repr

/-- Row of the `deployments` table per the schema:
`id`, `name`, `appId`, `createdTime`, `key` (no other columns exist). -/
structure Deployment where
  id : String
  name : String
  appId : String
  key : String
deriving DecidableEq, Repr

/-- Row of the `packages` table. `rollout` is `Option Int` (`none` = SQL
NULL); `uploadTime` is milliseconds since epoch. -/
structure Package where
  id : String
  deploymentId : String
  description : String
  isDisabled : Bool
  isMandatory : Bool
  rollout : Option Int
  appVersion : String
  packageHash : String
  blobUrl : String
  size : Int
  manifestBlobUrl : String
  releaseMethod : String
  uploadTime : Int
  label : String
  originalLabel : Option String
  originalDeployment : Option String
deriving DecidableEq, Repr

/-- Row of the `access_keys` table (columns the lookup join reads). -/
structure AccessKeyRow where
  id : String
  name : String
deriving DecidableEq, Repr

/-- Row of the `access_key_to_account_map` join table; `expires` is the
authoritative expiry in milliseconds since epoch. -/
structure AccessKeyAccountEntry where
  accessKeyId : String
  accountId : String
  expires : Int
deriving DecidableEq, Repr

/-- Row of the `account_to_apps_map` visibility-link table; the pair
`(accountId, appId)` is its primary key. -/
structure AccountAppLink where
  accountId : String
  appId : String
deriving DecidableEq, Repr

/-- The relational store: one insertion-ordered list per table, plus a
counter supplying the fresh identifiers that `uuidv4()` generates (assumed
collision-free, as the source assumes). -/
structure DB where
  accounts : List Account
  apps : List App
  deployments : List Deployment
  packages : List Package
  accessKeys : List AccessKeyRow
  accessKeyToAccountMap : List AccessKeyAccountEntry
  accountToAppsMap : List AccountAppLink
  freshId : Nat
deriving DecidableEq, Repr

deriving instance DecidableEq for Except

/-- Models `uuidv4()`: the n-th generated identifier. -/
def genId (n : Nat) : String :=
  "id-" ++ toString n

/-- JavaScript `String.prototype.toLowerCase()`, applied per character (the
form used on the ASCII emails this storage handles). -/
def toLowerCase (s : String) : String :=
  String.mk (s.data.map Char.toLower)

/-- JavaScript property read `m[k]` on the collaborators object. -/
def cmGet (m : CollaboratorMap) (k : String) : Option CollaboratorProperties :=
  (m.find? (fun p => p.1 == k)).map (fun p => p.2)

/-- Per-entry body of the overwriting branch of `cmSet`. -/
def overwriteEntry (k : String) (v : CollaboratorProperties) (p : String × CollaboratorProperties) : String × CollaboratorProperties :=
  if p.1 == k then (k, v) else p

/-- JavaScript property assignment `m[k] = v`: overwrites in place when the
key exists, otherwise appends the new key. -/
def cmSet (m : CollaboratorMap) (k : String) (v : CollaboratorProperties) : CollaboratorMap :=
  if (m.find? (fun p => p.1 == k)).isSome then
    m.map (overwriteEntry k v)
  else
    m ++ [(k, v)]

/-- Per-entry body of `cmSetPermission`. -/
def setPermEntry (k : String) (perm : Permission) (p : String × CollaboratorProperties) : String × CollaboratorProperties :=
  if p.1 == k then (p.1, { p.2 with permission := perm }) else p

/-- JavaScript `m[k].permission = perm` for a key that is present (the
callers either check presence first or crash, which they model separately). -/
def cmSetPermission (m : CollaboratorMap) (k : String) (perm : Permission) : CollaboratorMap :=
  m.map (setPermEntry k perm)

/-- JavaScript `delete m[k]`. -/
def cmDelete (m : CollaboratorMap) (k : String) : CollaboratorMap :=
  m.filter (fun p => p.1 != k)

/-- Modelled from the spec: `isPrototypePollutionKey` is defined in
`storage.ts`, which is not under `src/`; the spec says `transferApp` and
`addCollaborator` reject "unsafe/prototype-polluting key strings" as
`Invalid`, i.e. the JavaScript object-pollution keys. -/
def isPrototypePollutionKey (key : String) : Bool :=
  key == "__proto__" || key == "constructor" || key == "prototype"

/-- Source `isOwner(list, email)`: the entry at `email` exists and its
permission is `Owner`. -/
def isOwner (list : CollaboratorMap) (email : String) : Bool :=
  match cmGet list email with
  | some c => c.permission == Permission.Owner
  | none => false

/-- Source `isCollaborator(list, email)`: the entry at `email` exists and its
permission is `Collaborator`. -/
def isCollaborator (list : CollaboratorMap) (email : String) : Bool :=
  match cmGet list email with
  | some c => c.permission == Permission.Collaborator
  | none => false

/-- Per-entry body of `addIsCurrentAccountProperty`: set
`isCurrentAccount = true` on an entry whose `accountId` matches the caller. -/
def annotateEntry (accountId : String) (p : String × CollaboratorProperties) : String × CollaboratorProperties :=
  if p.2.accountId == accountId then (p.1, { p.2 with isCurrentAccount := some true }) else p

/-- Per-entry body of `removeIsCurrentAccountProperty`: drop the annotation
when it is truthy (`if (entry.isCurrentAccount) delete entry.isCurrentAccount`);
an entry carrying `isCurrentAccount = false` (falsy) is left untouched. -/
def stripEntry (p : String × CollaboratorProperties) : String × CollaboratorProperties :=
  match p.2.isCurrentAccount with
  | some true => (p.1, { p.2 with isCurrentAccount := none })
  | _ => p

/-- Source `addIsCurrentAccountProperty(app, accountId)`: marks every
collaborator entry whose `accountId` matches the caller with
`isCurrentAccount = true` (it only ever sets `true`, never `false`). -/
def addIsCurrentAccountProperty (app : App) (accountId : String) : App :=
  { app with collaborators := app.collaborators.map (annotateEntry accountId) }

/-- Source `removeIsCurrentAccountProperty(app)`: deletes the
`isCurrentAccount` property from entries where it is truthy. -/
def removeIsCurrentAccountProperty (app : App) : App :=
  { app with collaborators := app.collaborators.map stripEntry }

/-- Source `getAccount(accountId)`: `SELECT * FROM accounts WHERE id=$1`,
`rows[0]`, rejecting `NotFound` when absent. -/
def getAccount (db : DB) (accountId : String) : Except StorageError Account :=
  match db.accounts.find? (fun a => a.id == accountId) with
  | none => Except.error (StorageError.code ErrorCode.NotFound none)
  | some account => Except.ok account

/-- Source `getAccountByEmail(email)`: `SELECT * FROM accounts WHERE
email=$1`, `rows[0]`, rejecting `NotFound` when absent. -/
def getAccountByEmail (db : DB) (email : String) : Except StorageError Account :=
  match db.accounts.find? (fun a => a.email == email) with
  | none => Except.error (StorageError.code ErrorCode.NotFound none)
  | some account => Except.ok account

/-- Source `getApp(accountId, appId)`: resolves the calling account, fetches
the app row by id (`NotFound` when absent, with no visibility check), and
annotates the fetched copy with `isCurrentAccount`. -/
def getApp (db : DB) (accountId : String) (appId : String) : Except StorageError App :=
  match getAccount db accountId with
  | Except.error e => Except.error e
  | Except.ok account =>
    match db.apps.find? (fun a => a.id == appId) with
    | none => Except.error (StorageError.code ErrorCode.NotFound none)
    | some app => Except.ok (addIsCurrentAccountProperty app account.id)

/-- Source private `getAppAccountId(appId)`: `SELECT * FROM
account_to_apps_map WHERE "appId"=$1` and reads `rows[0].accountId`.  When no
row matches, `rows[0]` is `undefined` and the property read throws a
`TypeError`, which the surrounding catch turns into a rejection. -/
def getAppAccountId (db : DB) (appId : String) : Except StorageError String :=
  match db.accountToAppsMap.find? (fun l => l.appId == appId) with
  | none => Except.error (StorageError.unclassified "TypeError: Cannot read properties of undefined (reading accountId)")
  | some data => Except.ok data.accountId

/-- Source `getAccountIdFromAccessKey`: the join rows of `access_keys a JOIN
access_key_to_account_map b ON b."accessKeyId"=a.id WHERE a.name=$1`. -/
def accessKeyJoinRows (db : DB) (accessKey : String) : List AccessKeyAccountEntry :=
  (db.accessKeys.filter (fun a => a.name == accessKey)).flatMap
    (fun a => db.accessKeyToAccountMap.filter (fun b => b.accessKeyId == a.id))

/-- Source `getAccountIdFromAccessKey(accessKey)`: `rows[0]` of the join;
absent row rejects `NotFound`; then `new Date().getTime() >= data.expires`
rejects `Expired`; otherwise resolves `data.accountId`.  `now` stands for
`new Date().getTime()`. -/
def getAccountIdFromAccessKey (db : DB) (accessKey : String) (now : Int) : Except StorageError String :=
  match accessKeyJoinRows db accessKey with
  | [] => Except.error (StorageError.code ErrorCode.NotFound none)
  | data :: _ =>
    if now >= data.expires then
      Except.error (StorageError.code ErrorCode.Expired (some "The access key has expired."))
    else
      Except.ok data.accountId

/-- Field holding what `deployment.package` would have to be for
`getDeploymentInfo` to work; see `deploymentRowPackage`. -/
structure DeploymentPackageField where
  appId : String
deriving DecidableEq, Repr

/-- The `deployments` table has columns `id`, `name`, `appId`,
`createdTime`, `key` only (schema file), so the property read
`deployment.package` on a row of `SELECT * FROM deployments` always yields
`undefined`. -/
def deploymentRowPackage (_ : Deployment) : Option DeploymentPackageField :=
  none

/-- Result value of `getDeploymentInfo`. -/
structure DeploymentInfo where
  appId : String
  deploymentId : String
deriving DecidableEq, Repr

/-- Source `getDeploymentInfo(deploymentKey)`: fetches the deployment row by
its public `key`, rejecting `NotFound` when absent; then reads
`deployment.package.appId`.  Since the row has no `package` column that read
throws a `TypeError` (and, this method having no try/catch, the deferred
promise is never settled; we surface the escaped error as `unclassified`). -/
def getDeploymentInfo (db : DB) (deploymentKey : String) : Except StorageError DeploymentInfo :=
  match db.deployments.find? (fun d => d.key == deploymentKey) with
  | none => Except.error (StorageError.code ErrorCode.NotFound none)
  | some deployment =>
    match deploymentRowPackage deployment with
    | none => Except.error (StorageError.unclassified "TypeError: Cannot read properties of undefined (reading appId)")
    | some pkg =>
      if pkg.appId == "" then
        Except.error (StorageError.code ErrorCode.NotFound none)
      else
        Except.ok { appId := pkg.appId, deploymentId := deployment.id }

/-- Source private `addAppPointer(accountId, appId)`: `INSERT INTO
account_to_apps_map`.  `(accountId, appId)` is the table's primary key, so
PostgreSQL rejects a duplicate pair with a unique-violation error. -/
def addAppPointer (db : DB) (accountId : String) (appId : String) : Except StorageError Unit × DB :=
  if db.accountToAppsMap.any (fun l => l.accountId == accountId && l.appId == appId) then
    (Except.error (StorageError.unclassified "duplicate key value violates unique constraint"), db)
  else
    (Except.ok (), { db with accountToAppsMap := db.accountToAppsMap ++ [{ accountId := accountId, appId := appId }] })

/-- Source private `removeAppPointer(accountId, appId)`: `DELETE FROM
account_to_apps_map WHERE "accountId"=$1 AND "appId"=$2` (a delete cannot
fail, so the state update is total). -/
def removeAppPointer (db : DB) (accountId : String) (appId : String) : DB :=
  { db with accountToAppsMap := db.accountToAppsMap.filter (fun l => !(l.accountId == accountId && l.appId == appId)) }

/-- Source `addApp(accountId, app)`: requires the account to exist,
initialises the collaborator map with the creating account as sole `Owner`,
inserts the app row with a fresh id, then inserts the visibility link, and
resolves the app with its assigned id and map. -/
def addApp (db : DB) (accountId : String) (app : App) : Except StorageError App × DB :=
  match getAccount db accountId with
  | Except.error e => (Except.error e, db)
  | Except.ok account =>
    let collaborators : CollaboratorMap :=
      [(account.email, { accountId := accountId, permission := Permission.Owner, isCurrentAccount := none })]
    let newAppId := genId db.freshId
    let newApp : App := { id := newAppId, name := app.name, collaborators := collaborators }
    let db1 := { db with apps := db.apps ++ [newApp], freshId := db.freshId + 1 }
    match addAppPointer db1 account.id newAppId with
    | (Except.error e, db2) => (Except.error e, db2)
    | (Except.ok _, db2) => (Except.ok newApp, db2)

/-- Source `removeApp(accountId, appId)`: resolves the recorded owning
account via `getAppAccountId` and throws `new Error("Wrong accountId")`
unless it equals the caller; otherwise `DELETE FROM apps WHERE id=$1`, whose
`ON DELETE CASCADE` clauses also remove the app's deployments, their
packages, and its visibility links. -/
def removeApp (db : DB) (accountId : String) (appId : String) : Except StorageError Unit × DB :=
  match getAppAccountId db appId with
  | Except.error e => (Except.error e, db)
  | Except.ok appAccountId =>
    if accountId != appAccountId then
      (Except.error (StorageError.unclassified "Wrong accountId"), db)
    else
      let removedDeploymentIds := (db.deployments.filter (fun d => d.appId == appId)).map (fun d => d.id)
      (Except.ok (), { db with
        apps := db.apps.filter (fun a => a.id != appId),
        deployments := db.deployments.filter (fun d => d.appId != appId),
        packages := db.packages.filter (fun p => !(removedDeploymentIds.contains p.deploymentId)),
        accountToAppsMap := db.accountToAppsMap.filter (fun l => l.appId != appId) })

set_option linter.unusedVariables false in
/-- Source `updateApp(accountId, app, ensureIsOwner = true)`: re-validates
via `getApp`, strips the transient `isCurrentAccount` annotation, then
`UPDATE apps SET name=$1, collaborators=$2 WHERE id=$3`.  The
`ensureIsOwner` flag is accepted and, exactly as in the source, never read. -/
def updateApp (db : DB) (accountId : String) (app : App) (ensureIsOwner : Bool) : Except StorageError Unit × DB :=
  match getApp db accountId app.id with
  | Except.error e => (Except.error e, db)
  | Except.ok _ =>
    let stripped := removeIsCurrentAccountProperty app
    (Except.ok (), { db with apps := db.apps.map (fun a =>
      if a.id == stripped.id then { a with name := stripped.name, collaborators := stripped.collaborators } else a) })

/-- Source `transferApp(accountId, appId, email)`: rejects pollution keys as
`Invalid`; fetches the app (annotated) and the caller's account; resolves the
target by lowercased email and renames `email` to the target's stored email;
rejects `AlreadyExists` if the target is already `Owner`; demotes the
requester's entry to `Collaborator` (a `TypeError` if the requester has no
entry); promotes an existing target entry in place, otherwise inserts a fresh
`Owner` entry and fires `addAppPointer` without awaiting it (its outcome is
discarded, its write kept); finally persists through `updateApp`. -/
def transferApp (db : DB) (accountId : String) (appId : String) (email : String) : Except StorageError Unit × DB :=
  if isPrototypePollutionKey email then
    (Except.error (StorageError.code ErrorCode.Invalid (some "Invalid email parameter")), db)
  else
    match getApp db accountId appId with
    | Except.error e => (Except.error e, db)
    | Except.ok app =>
      match getAccount db accountId with
      | Except.error e => (Except.error e, db)
      | Except.ok account =>
        let requesterEmail := account.email
        match getAccountByEmail db (toLowerCase email) with
        | Except.error e => (Except.error e, db)
        | Except.ok targetOwnerAccount =>
          let targetOwnerAccountId := targetOwnerAccount.id
          let email := targetOwnerAccount.email
          if isOwner app.collaborators email then
            (Except.error (StorageError.code ErrorCode.AlreadyExists none), db)
          else
            match cmGet app.collaborators requesterEmail with
            | none =>
              (Except.error (StorageError.unclassified "TypeError: Cannot set properties of undefined (setting permission)"), db)
            | some _ =>
              let app1 := { app with collaborators := cmSetPermission app.collaborators requesterEmail Permission.Collaborator }
              if isCollaborator app1.collaborators email then
                let app2 := { app1 with collaborators := cmSetPermission app1.collaborators email Permission.Owner }
                updateApp db accountId app2 true
              else
                let app2 := { app1 with collaborators := cmSet app1.collaborators email { accountId := targetOwnerAccountId, permission := Permission.Owner, isCurrentAccount := none } }
                let pointered := (addAppPointer db targetOwnerAccountId app2.id).2
                updateApp pointered accountId app2 true

/-- Source `addCollaborator(accountId, appId, email)`: rejects pollution
keys as `Invalid`; fetches the app; rejects `AlreadyExists` when the
*raw supplied* email already keys an entry (the check precedes the lowercase
normalisation); resolves the target account by lowercased email; writes a
`Collaborator` entry under the target's stored email; awaits `addAppPointer`
(so a duplicate-link violation rejects the whole call); persists through
`updateApp`. -/
def addCollaborator (db : DB) (accountId : String) (appId : String) (email : String) : Except StorageError Unit × DB :=
  if isPrototypePollutionKey email then
    (Except.error (StorageError.code ErrorCode.Invalid (some "Invalid email parameter")), db)
  else
    match getApp db accountId appId with
    | Except.error e => (Except.error e, db)
    | Except.ok app =>
      if isCollaborator app.collaborators email || isOwner app.collaborators email then
        (Except.error (StorageError.code ErrorCode.AlreadyExists none), db)
      else
        match getAccountByEmail db (toLowerCase email) with
        | Except.error e => (Except.error e, db)
        | Except.ok targetCollaboratorAccount =>
          let targetCollaboratorAccountId := targetCollaboratorAccount.id
          let email := targetCollaboratorAccount.email
          let app1 := { app with collaborators := cmSet app.collaborators email { accountId := targetCollaboratorAccountId, permission := Permission.Collaborator, isCurrentAccount := none } }
          match addAppPointer db targetCollaboratorAccountId app1.id with
          | (Except.error e, db2) => (Except.error e, db2)
          | (Except.ok _, db2) => updateApp db2 accountId app1 true

/-- Source `removeCollaborator(accountId, appId, email)`: fetches the app;
rejects `NotFound` ("Cannot remove the owner...") when the raw email keys the
`Owner` entry; resolves the target account by lowercased email (`NotFound` if
absent); rejects `NotFound` unless the raw email keys a `Collaborator` entry
and the target account id is truthy; deletes the visibility link and the map
entry and persists with `ensureIsOwner = false`. -/
def removeCollaborator (db : DB) (accountId : String) (appId : String) (email : String) : Except StorageError Unit × DB :=
  match getApp db accountId appId with
  | Except.error e => (Except.error e, db)
  | Except.ok app =>
    if isOwner app.collaborators email then
      (Except.error (StorageError.code ErrorCode.NotFound (some "Cannot remove the owner of the app from collaborator list.")), db)
    else
      match getAccountByEmail db (toLowerCase email) with
      | Except.error e => (Except.error e, db)
      | Except.ok targetCollaboratorAccount =>
        let targetCollaboratorAccountId := targetCollaboratorAccount.id
        if !(isCollaborator app.collaborators email) || targetCollaboratorAccountId == "" then
          (Except.error (StorageError.code ErrorCode.NotFound none), db)
        else
          let db1 := removeAppPointer db targetCollaboratorAccountId appId
          let app1 := { app with collaborators := cmDelete app.collaborators email }
          updateApp db1 accountId app1 false

/-- Source `getDeployment(accountId, appId, deploymentId)`: authorizes via
`getApp`, then fetches the deployment by id (`NotFound` when absent; note the
fetched row's `appId` is not compared against the supplied `appId`). -/
def getDeployment (db : DB) (accountId : String) (appId : String) (deploymentId : String) : Except StorageError Deployment :=
  match getApp db accountId appId with
  | Except.error e => Except.error e
  | Except.ok _ =>
    match db.deployments.find? (fun d => d.id == deploymentId) with
    | none => Except.error (StorageError.code ErrorCode.NotFound none)
    | some deployment => Except.ok deployment

/-- The caller-supplied `appPackage` argument of `commitPackage` (its `label`
is assigned by the operation; the optional booleans model fields the caller
may omit, which `!!` coerces to `false`). -/
structure PackageSubmission where
  description : String
  isDisabled : Option Bool
  isMandatory : Option Bool
  rollout : Option Int
  appVersion : String
  packageHash : String
  blobUrl : String
  size : Int
  manifestBlobUrl : String
  releaseMethod : String
  uploadTime : Int
  originalLabel : Option String
  originalDeployment : Option String
deriving DecidableEq, Repr

/-- The subselect `SELECT id FROM packages WHERE "deploymentId"=$1 ORDER BY
"uploadTime" DESC LIMIT 1`: the id of the deployment's package with the most
recent upload time (`none` when the deployment has no packages). -/
def latestPackageId (pkgs : List Package) (deploymentId : String) : Option String :=
  match pkgs.filter (fun p => p.deploymentId == deploymentId) with
  | [] => none
  | p :: ps => some ((ps.foldl (fun best q => if q.uploadTime > best.uploadTime then q else best) p).id)

/-- Per-row body of the `UPDATE packages SET rollout=NULL WHERE id=...`
statement: every row carrying the selected id has its `rollout` cleared. -/
def clearRolloutEntry (lid : String) (p : Package) : Package :=
  if p.id == lid then { p with rollout := none } else p

/-- Source `commitPackage(accountId, appId, deploymentId, appPackage)`:
authorizes via `getDeployment`; clears `rollout` on the package selected by
`latestPackageId` (the `UPDATE ... WHERE id = (subselect)` touches every row
carrying that id and nothing when the subselect is empty); counts the
deployment's packages and assigns `label = "v" + (count + 1)`; inserts the
new package row with a fresh id, coercing absent boolean flags to `false`;
resolves the package with its assigned label. -/
def commitPackage (db : DB) (accountId : String) (appId : String) (deploymentId : String) (appPackage : PackageSubmission) : Except StorageError Package × DB :=
  match getDeployment db accountId appId deploymentId with
  | Except.error e => (Except.error e, db)
  | Except.ok _ =>
    let db1 : DB :=
      match latestPackageId db.packages deploymentId with
      | none => db
      | some lid => { db with packages := db.packages.map (clearRolloutEntry lid) }
    let count := (db1.packages.filter (fun p => p.deploymentId == deploymentId)).length
    let label := "v" ++ toString (count + 1)
    let newPkg : Package := {
      id := genId db1.freshId,
      deploymentId := deploymentId,
      description := appPackage.description,
      isDisabled := appPackage.isDisabled.getD false,
      isMandatory := appPackage.isMandatory.getD false,
      rollout := appPackage.rollout,
      appVersion := appPackage.appVersion,
      packageHash := appPackage.packageHash,
      blobUrl := appPackage.blobUrl,
      size := appPackage.size,
      manifestBlobUrl := appPackage.manifestBlobUrl,
      releaseMethod := appPackage.releaseMethod,
      uploadTime := appPackage.uploadTime,
      label := label,
      originalLabel := appPackage.originalLabel,
      originalDeployment := appPackage.originalDeployment }
    (Except.ok newPkg, { db1 with packages := db1.packages ++ [newPkg], freshId := db1.freshId + 1 })

/-- Source `updatePackageHistory(accountId, appId, deploymentId, history)`:
rejects an empty (or missing) history as `Invalid` before any store access;
otherwise authorizes via `getDeployment` and rewrites the mutable columns of
each history entry by its id. -/
def updatePackageHistory (db : DB) (accountId : String) (appId : String) (deploymentId : String) (history : List Package) : Except StorageError Unit × DB :=
  if history.isEmpty then
    (Except.error (StorageError.code ErrorCode.Invalid (some "Cannot clear package history from an update operation")), db)
  else
    match getDeployment db accountId appId deploymentId with
    | Except.error e => (Except.error e, db)
    | Except.ok _ =>
      let newPkgs : List Package := history.foldl (fun pkgs h =>
        pkgs.map (fun p =>
          if p.id == h.id then
            { p with
              rollout := h.rollout,
              description := h.description,
              isDisabled := h.isDisabled,
              isMandatory := h.isMandatory,
              appVersion := h.appVersion,
              packageHash := h.packageHash,
              blobUrl := h.blobUrl,
              size := h.size,
              manifestBlobUrl := h.manifestBlobUrl,
              releaseMethod := h.releaseMethod,
              uploadTime := h.uploadTime,
              label := h.label }
          else p)) db.packages
      (Except.ok (), { db with packages := newPkgs })

/-- One collaboration-manager call, for reasoning about call sequences. -/
inductive Op
  | addApp (accountId : String) (app : App)
  | transferApp (accountId : String) (appId : String) (email : String)
  | addCollaborator (accountId : String) (appId : String) (email : String)
  | removeCollaborator (accountId : String) (appId : String) (email : String)
deriving DecidableEq, Repr

/-- Runs one call against the store, discarding the resolved value. -/
def applyOp (db : DB) : Op → Except StorageError Unit × DB
  | Op.addApp accountId app =>
    match addApp db accountId app with
    | (Except.error e, db2) => (Except.error e, db2)
    | (Except.ok _, db2) => (Except.ok (), db2)
  | Op.transferApp accountId appId email => transferApp db accountId appId email
  | Op.addCollaborator accountId appId email => addCollaborator db accountId appId email
  | Op.removeCollaborator accountId appId email => removeCollaborator db accountId appId email

/-- Runs a sequence of calls; the run is a success only when every call
resolves. -/
def runOps (db : DB) : List Op → Except StorageError DB
  | [] => Except.ok db
  | op :: rest =>
    match applyOp db op with
    | (Except.ok _, db2) => runOps db2 rest
    | (Except.error e, _) => Except.error e

/-- A `transferApp` call is owner-issued when, at the moment it runs, the
issuing account's email keys the `Owner` entry of the target app's map (the
other three calls are unconstrained). -/
def ownerIssuedOp (db : DB) : Op → Bool
  | Op.transferApp accountId appId _ =>
    match getAccount db accountId, db.apps.find? (fun a => a.id == appId) with
    | Except.ok account, some app => isOwner app.collaborators account.email
    | _, _ => true
  | _ => true

/-- Every `transferApp` of the sequence is owner-issued in the store state
it actually runs against. -/
def ownerIssuedTransfers (db : DB) : List Op → Bool
  | [] => true
  | op :: rest =>
    ownerIssuedOp db op &&
      (match applyOp db op with
       | (Except.ok _, db2) => ownerIssuedTransfers db2 rest
       | (Except.error _, _) => true)

/-- Number of collaborator entries holding `Owner` permission. -/
def ownerCount (m : CollaboratorMap) : Nat :=
  (m.filter (fun p => p.2.permission == Permission.Owner)).length

/-- The JavaScript-object keys of the map are distinct. -/
def keysNodup (m : CollaboratorMap) : Prop :=
  (m.map Prod.fst).Nodup

/-- A collaborator entry is backed by the store: its key is the stored email
of the account it names, and that account holds a visibility link to the
app.  `addApp`, `transferApp`, `addCollaborator` and `removeCollaborator`
all maintain this. -/
def entryBacked (db : DB) (appId : String) (p : String × CollaboratorProperties) : Prop :=
  (∃ acct ∈ db.accounts, acct.email = p.1 ∧ acct.id = p.2.accountId) ∧
  (∃ l ∈ db.accountToAppsMap, l.accountId = p.2.accountId ∧ l.appId = appId)

/-- Well-formedness of one stored app row. -/
def AppOk (db : DB) (app : App) : Prop :=
  keysNodup app.collaborators ∧
  ownerCount app.collaborators = 1 ∧
  ∀ p ∈ app.collaborators, entryBacked db app.id p

/-- Well-formedness of the accounts table, as `addAccount` maintains it:
emails stored lowercased, emails unique, ids unique.  The four
collaboration-manager calls never write this table. -/
def AccountsOk (db : DB) : Prop :=
  (∀ a ∈ db.accounts, toLowerCase a.email = a.email) ∧
  (db.accounts.map Account.email).Nodup ∧
  (db.accounts.map Account.id).Nodup

/-- Store well-formedness: the reachable-state envelope the collaboration
manager maintains. -/
def Inv (db : DB) : Prop :=
  AccountsOk db ∧ ∀ app ∈ db.apps, AppOk db app

instance : DecidablePred keysNodup := fun m =>
  inferInstanceAs (Decidable ((m.map Prod.fst).Nodup))

instance (db : DB) (appId : String) (p : String × CollaboratorProperties) :
    Decidable (entryBacked db appId p) :=
  inferInstanceAs (Decidable (_ ∧ _))

instance (db : DB) (app : App) : Decidable (AppOk db app) :=
  inferInstanceAs (Decidable (_ ∧ _ ∧ _))

instance (db : DB) : Decidable (AccountsOk db) :=
  inferInstanceAs (Decidable (_ ∧ _ ∧ _))

instance (db : DB) : Decidable (Inv db) :=
  inferInstanceAs (Decidable (_ ∧ _))

/-- An empty store. -/
def emptyDB : DB :=
  { accounts := [], apps := [], deployments := [], packages := [],
    accessKeys := [], accessKeyToAccountMap := [], accountToAppsMap := [],
    freshId := 0 }

/-- Concrete store: three accounts; `app1` owned by `a1` with `a2` as
collaborator; visibility links for both, owner's first. -/
def storeABC : DB :=
  { emptyDB with
    accounts := [
      { id := "a1", name := "A", email := "a@x.com", gitHubId := "g1" },
      { id := "a2", name := "B", email := "b@x.com", gitHubId := "g2" },
      { id := "a3", name := "C", email := "c@x.com", gitHubId := "g3" }],
    apps := [
      { id := "app1", name := "MyApp", collaborators := [
          ("a@x.com", { accountId := "a1", permission := Permission.Owner, isCurrentAccount := none }),
          ("b@x.com", { accountId := "a2", permission := Permission.Collaborator, isCurrentAccount := none })] }],
    accountToAppsMap := [
      { accountId := "a1", appId := "app1" },
      { accountId := "a2", appId := "app1" }] }

/-- Concrete store: one account owning `app1`, which has a deployment
`dep1` with public key `DK1` and no packages. -/
def storePkg : DB :=
  { emptyDB with
    accounts := [{ id := "a1", name := "A", email := "a@x.com", gitHubId := "g1" }],
    apps := [{ id := "app1", name := "MyApp", collaborators := [
      ("a@x.com", { accountId := "a1", permission := Permission.Owner, isCurrentAccount := none })] }],
    deployments := [{ id := "dep1", name := "Production", appId := "app1", key := "DK1" }] }

/-- Concrete store: two accounts, no apps yet. -/
def storePair : DB :=
  { emptyDB with
    accounts := [
      { id := "a1", name := "A", email := "a@x.com", gitHubId := "g1" },
      { id := "a2", name := "B", email := "b@x.com", gitHubId := "g2" }] }

/-- Concrete store: one account `a1` with access key named `key1` whose
account mapping expires at time 1000. -/
def storeKeys : DB :=
  { emptyDB with
    accounts := [{ id := "a1", name := "A", email := "a@x.com", gitHubId := "g1" }],
    accessKeys := [{ id := "k1", name := "key1" }],
    accessKeyToAccountMap := [{ accessKeyId := "k1", accountId := "a1", expires := 1000 }] }

/-- An `updateApp` argument whose collaborator map carries an explicit
`isCurrentAccount = false` annotation on the collaborator entry. -/
def appWithFalseAnnotation : App :=
  { id := "app1", name := "MyApp", collaborators := [
      ("a@x.com", { accountId := "a1", permission := Permission.Owner, isCurrentAccount := none }),
      ("b@x.com", { accountId := "a2", permission := Permission.Collaborator, isCurrentAccount := some false })] }

/-- A `commitPackage` submission fixture with the given upload time and
rollout. -/
def mkSubmission (t : Int) (r : Option Int) : PackageSubmission :=
  { description := "d", isDisabled := none, isMandatory := none, rollout := r,
    appVersion := "1.0.0", packageHash := "h", blobUrl := "b", size := 1,
    manifestBlobUrl := "m", releaseMethod := "Upload", uploadTime := t,
    originalLabel := none, originalDeployment := none }

/-- Runs a sequence of `commitPackage` calls on one deployment; the run is a
success only when every call resolves. -/
def runCommits (db : DB) (accountId : String) (appId : String) (deploymentId : String) : List PackageSubmission → Except StorageError DB
  | [] => Except.ok db
  | s :: rest =>
    match commitPackage db accountId appId deploymentId s with
    | (Except.ok _, db2) => runCommits db2 accountId appId deploymentId rest
    | (Except.error e, _) => Except.error e

/-- Three submissions with strictly increasing upload times, the first two
staged to a partial rollout. -/
def c2Subs : List PackageSubmission :=
  [mkSubmission 10 (some 50), mkSubmission 20 (some 25), mkSubmission 30 none]

/-- The store after committing `c2Subs` to `dep1` of `storePkg` (falling
back to `storePkg` itself if the run failed, which it does not). -/
def c2OutDB : DB :=
  match runCommits storePkg "a1" "app1" "dep1" c2Subs with
  | Except.ok db => db
  | Except.error _ => storePkg

/-- The call sequence of the ownership scenario: `a1` creates an app (which
receives id `id-0`), adds `b@x.com` as collaborator, then transfers
ownership to `b@x.com`. -/
def scenarioOps : List Op :=
  [Op.addApp "a1" { id := "", name := "MyApp", collaborators := [] },
   Op.addCollaborator "a1" "id-0" "b@x.com",
   Op.transferApp "a1" "id-0" "b@x.com"]

/-- The store after running `scenarioOps` on `storePair` (falling back to
`storePair` itself if the run failed, which it does not). -/
def scenarioOut : DB :=
  match runOps storePair scenarioOps with
  | Except.ok db => db
  | Except.error _ => storePair

/-- The app row the ownership scenario produced. -/
def scenarioApp : App :=
  match scenarioOut.apps.find? (fun a => a.id == "id-0") with
  | some a => a
  | none => { id := "", name := "", collaborators := [] }

/-- An `updateApp` argument carrying only a read-produced (`true`)
annotation, as every in-repository caller of `updateApp` produces. -/
def appCleanAnnotated : App :=
  { id := "app1", name := "Renamed", collaborators := [
      ("a@x.com", { accountId := "a1", permission := Permission.Owner, isCurrentAccount := some true }),
      ("b@x.com", { accountId := "a2", permission := Permission.Collaborator, isCurrentAccount := none })] }

/-- The store `updateApp storeABC "a1" appCleanAnnotated` leaves behind. -/
def c9OutDB : DB :=
  (updateApp storeABC "a1" appCleanAnnotated true).2

/-- The app row persisted by `updateApp storeABC "a1" appCleanAnnotated`. -/
def c9PersistedApp : App :=
  match c9OutDB.apps.find? (fun a => a.id == "app1") with
  | some a => a
  | none => { id := "", name := "", collaborators := [] }

/-- The stored packages of one deployment, in insertion order. -/
def deploymentPackages (db : DB) (d : String) : List Package :=
  db.packages.filter (fun p => p.deploymentId == d)

/-- The expected label sequence `v1 .. vn`. -/
def vLabels (n : Nat) : List String :=
  (List.range n).map (fun i => "v" ++ toString (i + 1))

/-!
Helper lemmas about the JavaScript-object operations and the read helpers.
-/

/-- A function on entries that never changes the key. -/
def keyFixed (f : String × CollaboratorProperties → String × CollaboratorProperties) : Prop :=
  ∀ p, (f p).1 = p.1

/-- A function on entries that never changes the permission. -/
def permFixed (f : String × CollaboratorProperties → String × CollaboratorProperties) : Prop :=
  ∀ p, (f p).2.permission = p.2.permission

theorem annotateEntry_keyFixed (accountId : String) : keyFixed (annotateEntry accountId) := by
  intro p
  unfold annotateEntry
  split <;> rfl

theorem annotateEntry_permFixed (accountId : String) : permFixed (annotateEntry accountId) := by
  intro p
  unfold annotateEntry
  split <;> rfl

theorem annotateEntry_accountId (accountId : String) (p : String × CollaboratorProperties) :
    (annotateEntry accountId p).2.accountId = p.2.accountId := by
  unfold annotateEntry
  split <;> rfl

theorem stripEntry_keyFixed : keyFixed stripEntry := by
  intro p
  unfold stripEntry
  split <;> rfl

theorem stripEntry_permFixed : permFixed stripEntry := by
  intro p
  unfold stripEntry
  split <;> rfl

theorem stripEntry_accountId (p : String × CollaboratorProperties) :
    (stripEntry p).2.accountId = p.2.accountId := by
  unfold stripEntry
  split <;> rfl

theorem setPermEntry_keyFixed (k : String) (perm : Permission) : keyFixed (setPermEntry k perm) := by
  intro p
  unfold setPermEntry
  split <;> rfl

theorem setPermEntry_accountId (k : String) (perm : Permission) (p : String × CollaboratorProperties) :
    (setPermEntry k perm p).2.accountId = p.2.accountId := by
  unfold setPermEntry
  split <;> rfl

theorem find?_map_keyFixed {f : String × CollaboratorProperties → String × CollaboratorProperties}
    (hf : keyFixed f) (m : CollaboratorMap) (k : String) :
    (m.map f).find? (fun p => p.1 == k) = Option.map f (m.find? (fun p => p.1 == k)) := by
  induction m with
  | nil => rfl
  | cons q m ih =>
    by_cases hq : q.1 = k
    · simp [List.find?, hf q, hq]
    · have hq' : (q.1 == k) = false := by simp [hq]
      simp [List.find?, hf q, hq', ih]

theorem cmGet_map_none_iff {f : String × CollaboratorProperties → String × CollaboratorProperties}
    (hf : keyFixed f) (m : CollaboratorMap) (k : String) :
    cmGet (m.map f) k = none ↔ cmGet m k = none := by
  unfold cmGet
  rw [find?_map_keyFixed hf]
  cases m.find? (fun p => p.1 == k) <;> simp

theorem isOwner_map_eq {f : String × CollaboratorProperties → String × CollaboratorProperties}
    (hfk : keyFixed f) (hfp : permFixed f) (m : CollaboratorMap) (k : String) :
    isOwner (m.map f) k = isOwner m k := by
  unfold isOwner cmGet
  rw [find?_map_keyFixed hfk]
  cases m.find? (fun p => p.1 == k) with
  | none => rfl
  | some p => simp [hfp p]

theorem isCollaborator_map_eq {f : String × CollaboratorProperties → String × CollaboratorProperties}
    (hfk : keyFixed f) (hfp : permFixed f) (m : CollaboratorMap) (k : String) :
    isCollaborator (m.map f) k = isCollaborator m k := by
  unfold isCollaborator cmGet
  rw [find?_map_keyFixed hfk]
  cases m.find? (fun p => p.1 == k) with
  | none => rfl
  | some p => simp [hfp p]

theorem getAccount_mem {db : DB} {accountId : String} {account : Account}
    (h : getAccount db accountId = Except.ok account) :
    account ∈ db.accounts ∧ account.id = accountId := by
  unfold getAccount at h
  cases hf : db.accounts.find? (fun a => a.id == accountId) with
  | none => rw [hf] at h; cases h
  | some a =>
    rw [hf] at h
    cases h
    exact ⟨List.mem_of_find?_eq_some hf, by have := List.find?_some hf; simpa using this⟩

theorem getAccountByEmail_mem {db : DB} {email : String} {account : Account}
    (h : getAccountByEmail db email = Except.ok account) :
    account ∈ db.accounts ∧ account.email = email := by
  unfold getAccountByEmail at h
  cases hf : db.accounts.find? (fun a => a.email == email) with
  | none => rw [hf] at h; cases h
  | some a =>
    rw [hf] at h
    cases h
    exact ⟨List.mem_of_find?_eq_some hf, by have := List.find?_some hf; simpa using this⟩

theorem getAccountByEmail_error {db : DB} {email : String} {e : StorageError}
    (h : getAccountByEmail db email = Except.error e) :
    e = StorageError.code ErrorCode.NotFound none := by
  unfold getAccountByEmail at h
  cases hf : db.accounts.find? (fun a => a.email == email) with
  | none => rw [hf] at h; cases h; rfl
  | some a => rw [hf] at h; cases h

theorem getApp_inv {db : DB} {accountId appId : String} {app : App}
    (h : getApp db accountId appId = Except.ok app) :
    ∃ account stored, getAccount db accountId = Except.ok account ∧
      db.apps.find? (fun a => a.id == appId) = some stored ∧
      app = addIsCurrentAccountProperty stored account.id ∧
      stored.id = appId := by
  unfold getApp at h
  cases hacc : getAccount db accountId with
  | error e => rw [hacc] at h; cases h
  | ok account =>
    rw [hacc] at h
    cases hf : db.apps.find? (fun a => a.id == appId) with
    | none => rw [hf] at h; cases h
    | some stored =>
      rw [hf] at h
      cases h
      refine ⟨account, stored, rfl, rfl, rfl, ?_⟩
      have := List.find?_some hf
      simpa using this

theorem getApp_id {db : DB} {accountId appId : String} {app : App}
    (h : getApp db accountId appId = Except.ok app) : app.id = appId := by
  obtain ⟨account, stored, -, -, happ, hid⟩ := getApp_inv h
  rw [happ]
  exact hid

/-- `removeAppPointer` touches only the link table. -/
theorem removeAppPointer_fields (db : DB) (accountId appId : String) :
    (removeAppPointer db accountId appId).accounts = db.accounts ∧
    (removeAppPointer db accountId appId).apps = db.apps := ⟨rfl, rfl⟩

/-- `getApp` is insensitive to the link table. -/
theorem getApp_removeAppPointer (db : DB) (tid aid accountId appId : String) :
    getApp (removeAppPointer db tid aid) accountId appId = getApp db accountId appId := rfl

/-!
Claim theorems.
-/

/-- C7: for every account, app, deployment and the empty package history,
`updatePackageHistory` fails `Invalid` (with the source's message) and the
store is returned unchanged: the emptiness guard precedes every store read
and write. -/
theorem c7_updatePackageHistory_empty_invalid (db : DB) (accountId appId deploymentId : String) :
    updatePackageHistory db accountId appId deploymentId [] =
      (Except.error (StorageError.code ErrorCode.Invalid (some "Cannot clear package history from an update operation")), db) := rfl

/-- C4: access-key resolution: an empty join (no key of that name, or no
key-to-account mapping) fails `NotFound`; with a first join row present,
expiry at or before `now` fails `Expired` (the check runs only in the
row-present branch, so the two outcomes are distinguishable), and a strictly
future expiry resolves to the mapped account id. -/
theorem c4_access_key_resolution (db : DB) (accessKey : String) (now : Int) :
    (accessKeyJoinRows db accessKey = [] →
      getAccountIdFromAccessKey db accessKey now =
        Except.error (StorageError.code ErrorCode.NotFound none)) ∧
    (∀ data rest, accessKeyJoinRows db accessKey = data :: rest →
      (now ≥ data.expires →
        getAccountIdFromAccessKey db accessKey now =
          Except.error (StorageError.code ErrorCode.Expired (some "The access key has expired."))) ∧
      (data.expires > now →
        getAccountIdFromAccessKey db accessKey now = Except.ok data.accountId)) := by
  constructor
  · intro h
    simp [getAccountIdFromAccessKey, h]
  · intro data rest h
    constructor
    · intro hexp
      simp [getAccountIdFromAccessKey, h, hexp]
    · intro hfut
      have hnot : ¬ (now ≥ data.expires) := by omega
      simp [getAccountIdFromAccessKey, h, hnot]

/-- C4 witness: on `storeKeys`, an unknown key name is `NotFound`; `key1` at
exactly its expiry time is `Expired`; `key1` one tick before expiry resolves
to `a1`. -/
theorem c4_witness :
    getAccountIdFromAccessKey storeKeys "missing" 500 =
      Except.error (StorageError.code ErrorCode.NotFound none) ∧
    getAccountIdFromAccessKey storeKeys "key1" 1000 =
      Except.error (StorageError.code ErrorCode.Expired (some "The access key has expired.")) ∧
    getAccountIdFromAccessKey storeKeys "key1" 999 = Except.ok "a1" := by
  refine ⟨?_, ?_, ?_⟩
  · exact (c4_access_key_resolution storeKeys "missing" 500).1 (by decide)
  · exact ((c4_access_key_resolution storeKeys "key1" 1000).2
      { accessKeyId := "k1", accountId := "a1", expires := 1000 } [] (by decide)).1 (by decide)
  · exact ((c4_access_key_resolution storeKeys "key1" 999).2
      { accessKeyId := "k1", accountId := "a1", expires := 1000 } [] (by decide)).2 (by decide)

/-- C3: on a store containing a deployment with key `DK1`, `getDeploymentInfo`
of that key does not return the deployment's `{appId, deploymentId}`: it
dereferences the non-existent `package` column of the row and dies with a
`TypeError` (claim's success half broken in the code), while an unknown key
still fails `NotFound` (claim's failure half intact). -/
theorem c3_getDeploymentInfo_code_bug :
    getDeploymentInfo storePkg "DK1" =
      Except.error (StorageError.unclassified "TypeError: Cannot read properties of undefined (reading appId)") ∧
    getDeploymentInfo storePkg "missing-key" =
      Except.error (StorageError.code ErrorCode.NotFound none) := by
  exact ⟨rfl, rfl⟩

/-- C10: when the requesting account's email keys no entry of the app's
collaborator map, `transferApp` to a valid non-owner target fails with the
unclassified `TypeError` thrown by the demotion step — none of the taxonomy
guards (`Invalid`, `NotFound`, `AlreadyExists`, `Expired`) fires first. -/
theorem c10_transfer_unclassified_on_missing_requester (db : DB)
    (accountId appId email : String) (app : App) (account target : Account)
    (hkey : isPrototypePollutionKey email = false)
    (happ : getApp db accountId appId = Except.ok app)
    (hacct : getAccount db accountId = Except.ok account)
    (htgt : getAccountByEmail db (toLowerCase email) = Except.ok target)
    (hnotowner : isOwner app.collaborators target.email = false)
    (hmissing : cmGet app.collaborators account.email = none) :
    transferApp db accountId appId email =
      (Except.error (StorageError.unclassified "TypeError: Cannot set properties of undefined (setting permission)"), db) := by
  simp [transferApp, hkey, happ, hacct, htgt, hnotowner, hmissing]

/-- C10 witness: account `a3` holds no entry on `app1`'s map, and its
transfer of `app1` to the existing non-owner `b@x.com` dies with the
demotion `TypeError`. -/
theorem c10_witness :
    transferApp storeABC "a3" "app1" "b@x.com" =
      (Except.error (StorageError.unclassified "TypeError: Cannot set properties of undefined (setting permission)"), storeABC) := by
  exact c10_transfer_unclassified_on_missing_requester storeABC "a3" "app1" "b@x.com"
    { id := "app1", name := "MyApp", collaborators := [
        ("a@x.com", { accountId := "a1", permission := Permission.Owner, isCurrentAccount := none }),
        ("b@x.com", { accountId := "a2", permission := Permission.Collaborator, isCurrentAccount := none })] }
    { id := "a3", name := "C", email := "c@x.com", gitHubId := "g3" }
    { id := "a2", name := "B", email := "b@x.com", gitHubId := "g2" }
    (by decide) (by decide) (by decide) (by decide) (by decide) (by decide)

/-- C8: `removeApp` resolves the app's recorded owning account as the first
visibility-link row for the app; it deletes the app exactly when that
resolution yields the calling account (cascading away deployments, packages
and links), fails with the non-retriable unclassified `Wrong accountId`
error leaving the store unchanged when it yields another account, and
propagates the resolution failure (a `TypeError`, when no link row exists)
leaving the store unchanged. -/
theorem c8_removeApp_requires_recorded_owner (db : DB) (accountId appId : String) :
    (getAppAccountId db appId = Except.ok accountId →
      ∃ db2, removeApp db accountId appId = (Except.ok (), db2) ∧
        ∀ a ∈ db2.apps, a.id ≠ appId) ∧
    (∀ own, getAppAccountId db appId = Except.ok own → own ≠ accountId →
      removeApp db accountId appId =
        (Except.error (StorageError.unclassified "Wrong accountId"), db)) ∧
    (∀ e, getAppAccountId db appId = Except.error e →
      removeApp db accountId appId = (Except.error e, db)) := by
  refine ⟨?_, ?_, ?_⟩
  · intro h
    refine ⟨{ db with
        apps := db.apps.filter (fun a => a.id != appId),
        deployments := db.deployments.filter (fun d => d.appId != appId),
        packages := db.packages.filter (fun p => !(((db.deployments.filter (fun d => d.appId == appId)).map (fun d => d.id)).contains p.deploymentId)),
        accountToAppsMap := db.accountToAppsMap.filter (fun l => l.appId != appId) }, ?_, ?_⟩
    · unfold removeApp
      rw [h]
      simp
    · intro a ha
      have := (List.mem_filter.mp ha).2
      simpa using this
  · intro own h hne
    have hbne : (accountId != own) = true := by
      simp only [bne_iff_ne, ne_eq]
      intro hh
      exact hne hh.symm
    simp [removeApp, h, hbne]
  · intro e h
    simp [removeApp, h]

/-- A successful `updateApp` leaves exactly the store with every app row of
the written app's id overwritten by the stripped name and map. -/
theorem updateApp_ok {db db2 : DB} {accountId : String} {app : App} {b : Bool} {u : Unit}
    (h : updateApp db accountId app b = (Except.ok u, db2)) :
    db2 = { db with apps := db.apps.map (fun a =>
      if a.id == (removeIsCurrentAccountProperty app).id then
        { a with name := (removeIsCurrentAccountProperty app).name,
                 collaborators := (removeIsCurrentAccountProperty app).collaborators }
      else a) } := by
  unfold updateApp at h
  cases hg : getApp db accountId app.id with
  | error e => rw [hg] at h; cases h
  | ok a0 =>
    rw [hg] at h
    injection h with h1 h2
    exact h2.symm

/-- `updateApp` succeeds whenever its own `getApp` re-validation does, and
then writes the stripped app. -/
theorem updateApp_succeeds {db : DB} {accountId : String} {app : App} {b : Bool} {a0 : App}
    (hg : getApp db accountId app.id = Except.ok a0) :
    updateApp db accountId app b = (Except.ok (), { db with apps := db.apps.map (fun a =>
      if a.id == (removeIsCurrentAccountProperty app).id then
        { a with name := (removeIsCurrentAccountProperty app).name,
                 collaborators := (removeIsCurrentAccountProperty app).collaborators }
      else a) }) := by
  unfold updateApp
  rw [hg]

/-- Stripping annotations after deleting a key leaves no entry at that key. -/
theorem cmGet_strip_delete (m : CollaboratorMap) (k : String) :
    cmGet ((cmDelete m k).map stripEntry) k = none := by
  unfold cmGet
  rw [find?_map_keyFixed stripEntry_keyFixed]
  have hnone : (cmDelete m k).find? (fun p => p.1 == k) = none := by
    rw [List.find?_eq_none]
    intro p hp
    have := (List.mem_filter.mp hp).2
    simpa using this
  rw [hnone]
  rfl

/-- C8 witness: on `storeABC`, the recorded owner of `app1` is `a1`; the
collaborator `a2` cannot remove the app (unchanged store), while `a1` can. -/
theorem c8_witness :
    removeApp storeABC "a2" "app1" =
      (Except.error (StorageError.unclassified "Wrong accountId"), storeABC) ∧
    (removeApp storeABC "a1" "app1").1 = Except.ok () := by
  constructor
  · exact (c8_removeApp_requires_recorded_owner storeABC "a2" "app1").2.1 "a1" (by decide) (by decide)
  · obtain ⟨db2, heq, -⟩ := (c8_removeApp_requires_recorded_owner storeABC "a1" "app1").1 (by decide)
    rw [heq]

/-- C5 counterexample: on `storeABC`, the email `b@x.com` holds Collaborator
permission under the app's normalized-email keys, yet
`addCollaborator("B@X.com")` does not fail `AlreadyExists`: the membership
guard compares the raw supplied string against the map keys, misses, and the
call proceeds until the duplicate visibility-link insert is rejected by the
store's unique constraint. -/
theorem c5_counterexample :
    addCollaborator storeABC "a1" "app1" "B@X.com" =
      (Except.error (StorageError.unclassified "duplicate key value violates unique constraint"), storeABC) ∧
    (addCollaborator storeABC "a1" "app1" "B@X.com").1 ≠
      Except.error (StorageError.code ErrorCode.AlreadyExists none) := by
  constructor
  · decide
  · decide

/-- C5 amended: `addCollaborator` fails `AlreadyExists` (store unchanged)
when the raw supplied email string itself keys an entry of the collaborator
map — the guard runs before lowercase normalisation, so a case-variant
spelling of a present member bypasses it; `transferApp` fails
`AlreadyExists` (store unchanged) when the target's stored, normalised email
keys the `Owner` entry. -/
theorem c5_already_exists_guards (db : DB) (accountId appId email : String) (app : App)
    (hkey : isPrototypePollutionKey email = false)
    (happ : getApp db accountId appId = Except.ok app) :
    ((isCollaborator app.collaborators email || isOwner app.collaborators email) = true →
      addCollaborator db accountId appId email =
        (Except.error (StorageError.code ErrorCode.AlreadyExists none), db)) ∧
    (∀ account target, getAccount db accountId = Except.ok account →
      getAccountByEmail db (toLowerCase email) = Except.ok target →
      isOwner app.collaborators target.email = true →
      transferApp db accountId appId email =
        (Except.error (StorageError.code ErrorCode.AlreadyExists none), db)) := by
  constructor
  · intro hguard
    simp [addCollaborator, hkey, happ, hguard]
  · intro account target hacct htgt howner
    simp [transferApp, hkey, happ, hacct, htgt, howner]

/-- C5 witness: `addCollaborator` of the exact stored key `b@x.com` is
`AlreadyExists`, and `transferApp` to the current owner `a@x.com` is
`AlreadyExists`, both leaving `storeABC` unchanged. -/
theorem c5_witness :
    addCollaborator storeABC "a1" "app1" "b@x.com" =
      (Except.error (StorageError.code ErrorCode.AlreadyExists none), storeABC) ∧
    transferApp storeABC "a1" "app1" "a@x.com" =
      (Except.error (StorageError.code ErrorCode.AlreadyExists none), storeABC) := by
  constructor
  · exact (c5_already_exists_guards storeABC "a1" "app1" "b@x.com"
      { id := "app1", name := "MyApp", collaborators := [
          ("a@x.com", { accountId := "a1", permission := Permission.Owner, isCurrentAccount := some true }),
          ("b@x.com", { accountId := "a2", permission := Permission.Collaborator, isCurrentAccount := none })] }
      (by decide) (by decide)).1 (by decide)
  · exact (c5_already_exists_guards storeABC "a1" "app1" "a@x.com"
      { id := "app1", name := "MyApp", collaborators := [
          ("a@x.com", { accountId := "a1", permission := Permission.Owner, isCurrentAccount := some true }),
          ("b@x.com", { accountId := "a2", permission := Permission.Collaborator, isCurrentAccount := none })] }
      (by decide) (by decide)).2
      { id := "a1", name := "A", email := "a@x.com", gitHubId := "g1" }
      { id := "a1", name := "A", email := "a@x.com", gitHubId := "g1" }
      (by decide) (by decide) (by decide)

/-- C6: `removeCollaborator` targeting the email keying the `Owner` entry
fails `NotFound` with the "cannot remove the owner" message, store
unchanged; targeting an email that keys no `Collaborator` entry fails
`NotFound` (whether because the first guard caught the owner, the account
lookup missed, or the membership guard missed), store unchanged; and on a
present collaborator with a resolvable account it succeeds — for any calling
account, including the collaborator removing themself (the persist runs with
`ensureIsOwner = false`) — deleting the target's visibility link and map
entry. -/
theorem c6_removeCollaborator_contract (db : DB) (accountId appId email : String) (app : App)
    (happ : getApp db accountId appId = Except.ok app) :
    (isOwner app.collaborators email = true →
      removeCollaborator db accountId appId email =
        (Except.error (StorageError.code ErrorCode.NotFound
          (some "Cannot remove the owner of the app from collaborator list.")), db)) ∧
    (isCollaborator app.collaborators email = false →
      ∃ msg, removeCollaborator db accountId appId email =
        (Except.error (StorageError.code ErrorCode.NotFound msg), db)) ∧
    (∀ target, isOwner app.collaborators email = false →
      getAccountByEmail db (toLowerCase email) = Except.ok target →
      isCollaborator app.collaborators email = true →
      (target.id == "") = false →
      ∃ db2, removeCollaborator db accountId appId email = (Except.ok (), db2) ∧
        (∀ l ∈ db2.accountToAppsMap, ¬(l.accountId = target.id ∧ l.appId = appId)) ∧
        (∀ a ∈ db2.apps, a.id = appId → cmGet a.collaborators email = none)) := by
  refine ⟨?_, ?_, ?_⟩
  · intro howner
    simp [removeCollaborator, happ, howner]
  · intro hnc
    cases howner : isOwner app.collaborators email with
    | true =>
      refine ⟨some "Cannot remove the owner of the app from collaborator list.", ?_⟩
      simp [removeCollaborator, happ, howner]
    | false =>
      cases htg : getAccountByEmail db (toLowerCase email) with
      | error e =>
        refine ⟨none, ?_⟩
        have he := getAccountByEmail_error htg
        rw [he] at htg
        simp [removeCollaborator, happ, howner, htg]
      | ok target =>
        refine ⟨none, ?_⟩
        simp [removeCollaborator, happ, howner, htg, hnc]
  · intro target howner htg hic hid
    have hid' : app.id = appId := getApp_id happ
    have hstored : getApp db accountId
        ({ app with collaborators := cmDelete app.collaborators email } : App).id = Except.ok app := by
      show getApp db accountId app.id = Except.ok app
      rw [hid']
      exact happ
    have hupd := @updateApp_succeeds (removeAppPointer db target.id appId) accountId
      { app with collaborators := cmDelete app.collaborators email } false app hstored
    have hfull : removeCollaborator db accountId appId email =
        updateApp (removeAppPointer db target.id appId) accountId
          { app with collaborators := cmDelete app.collaborators email } false := by
      simp [removeCollaborator, happ, howner, htg, hic, hid]
    rw [hupd] at hfull
    refine ⟨_, hfull, ?_, ?_⟩
    · intro l hl hcontra
      rcases hcontra with ⟨h1, h2⟩
      simp only [removeAppPointer] at hl
      have hmem := (List.mem_filter.mp hl).2
      simp [h1, h2] at hmem
    · intro a ha hidA
      simp only [removeAppPointer] at ha
      obtain ⟨orig, horig, rfl⟩ := List.mem_map.mp ha
      by_cases hco : (orig.id ==
          (removeIsCurrentAccountProperty
            { app with collaborators := cmDelete app.collaborators email }).id) = true
      · rw [if_pos hco]
        exact cmGet_strip_delete app.collaborators email
      · rw [if_neg (by simpa using hco)] at hidA ⊢
        exact absurd (by simp [removeIsCurrentAccountProperty, hidA, hid'] : (orig.id ==
          (removeIsCurrentAccountProperty
            { app with collaborators := cmDelete app.collaborators email }).id) = true) hco

/-- C6 witness: on `storeABC`, removing the owner `a@x.com` is `NotFound`
with the owner message; removing the non-member `c@x.com` leaves the store
unchanged (it is `NotFound`); and the collaborator `a2` successfully removes
themself (`b@x.com`). -/
theorem c6_witness :
    removeCollaborator storeABC "a1" "app1" "a@x.com" =
      (Except.error (StorageError.code ErrorCode.NotFound
        (some "Cannot remove the owner of the app from collaborator list.")), storeABC) ∧
    (removeCollaborator storeABC "a1" "app1" "c@x.com").2 = storeABC ∧
    (removeCollaborator storeABC "a2" "app1" "b@x.com").1 = Except.ok () := by
  refine ⟨?_, ?_, ?_⟩
  · exact (c6_removeCollaborator_contract storeABC "a1" "app1" "a@x.com"
      { id := "app1", name := "MyApp", collaborators := [
          ("a@x.com", { accountId := "a1", permission := Permission.Owner, isCurrentAccount := some true }),
          ("b@x.com", { accountId := "a2", permission := Permission.Collaborator, isCurrentAccount := none })] }
      (by decide)).1 (by decide)
  · obtain ⟨msg, heq⟩ := (c6_removeCollaborator_contract storeABC "a1" "app1" "c@x.com"
      { id := "app1", name := "MyApp", collaborators := [
          ("a@x.com", { accountId := "a1", permission := Permission.Owner, isCurrentAccount := some true }),
          ("b@x.com", { accountId := "a2", permission := Permission.Collaborator, isCurrentAccount := none })] }
      (by decide)).2.1 (by decide)
    rw [heq]
  · obtain ⟨db2, heq, -, -⟩ := (c6_removeCollaborator_contract storeABC "a2" "app1" "b@x.com"
      { id := "app1", name := "MyApp", collaborators := [
          ("a@x.com", { accountId := "a1", permission := Permission.Owner, isCurrentAccount := none }),
          ("b@x.com", { accountId := "a2", permission := Permission.Collaborator, isCurrentAccount := some true })] }
      (by decide)).2.2
      { id := "a2", name := "B", email := "b@x.com", gitHubId := "g2" }
      (by decide) (by decide) (by decide) (by decide)
    rw [heq]

/-- C9 counterexample: `updateApp` succeeds on an app argument whose
collaborator entry carries `isCurrentAccount = false`, and the persisted
collaborator map still contains that `isCurrentAccount` field: the stripping
step only deletes truthy annotations. -/
theorem c9_counterexample :
    (updateApp storeABC "a1" appWithFalseAnnotation true).1 = Except.ok () ∧
    (updateApp storeABC "a1" appWithFalseAnnotation true).2.apps =
      [{ id := "app1", name := "MyApp", collaborators := [
          ("a@x.com", { accountId := "a1", permission := Permission.Owner, isCurrentAccount := none }),
          ("b@x.com", { accountId := "a2", permission := Permission.Collaborator, isCurrentAccount := some false })] }] := by
  constructor
  · decide
  · decide

/-- C9 amended: for every write through `updateApp` whose app argument has
no entry explicitly annotated `isCurrentAccount = false`, the persisted
collaborator map carries no `isCurrentAccount` field on any entry.  The
reads that produce the transient annotation only ever set it to `true`, and
true annotations are always stripped before the write; but the stripping is
a truthiness check, so an explicit `false` annotation would be persisted. -/
theorem c9_updateApp_strips_read_annotations (db db2 : DB) (accountId : String) (app : App)
    (ensureIsOwner : Bool) (u : Unit)
    (hclean : ∀ p ∈ app.collaborators, p.2.isCurrentAccount ≠ some false)
    (hok : updateApp db accountId app ensureIsOwner = (Except.ok u, db2)) :
    ∀ a ∈ db2.apps, a.id = app.id → ∀ p ∈ a.collaborators, p.2.isCurrentAccount = none := by
  have hdb2 := updateApp_ok hok
  subst hdb2
  intro a ha hidA p hp
  obtain ⟨orig, horig, rfl⟩ := List.mem_map.mp ha
  by_cases hco : (orig.id == (removeIsCurrentAccountProperty app).id) = true
  · rw [if_pos hco] at hp
    obtain ⟨q, hq, rfl⟩ := List.mem_map.mp hp
    have hqc := hclean q hq
    unfold stripEntry
    cases hqi : q.2.isCurrentAccount with
    | none => exact hqi
    | some b =>
      cases b with
      | true => rfl
      | false => exact absurd hqi hqc
  · rw [if_neg (by simpa using hco)] at hidA
    exact absurd (by simp [removeIsCurrentAccountProperty, hidA] :
      (orig.id == (removeIsCurrentAccountProperty app).id) = true) hco

/-- C9 witness: on the read-shaped argument `appCleanAnnotated` (whose only
annotation is `true`), the persisted map of `app1` has the field absent on
every entry. -/
theorem c9_witness :
    (appCleanAnnotated.collaborators.all (fun p => !(p.2.isCurrentAccount == some false))) = true ∧
    (c9PersistedApp.collaborators.all (fun p => p.2.isCurrentAccount == none)) = true := by
  constructor
  · decide
  · have h := c9_updateApp_strips_read_annotations storeABC c9OutDB "a1" appCleanAnnotated true ()
      (by decide) (by decide)
    refine List.all_eq_true.mpr ?_
    intro p hp
    have hmem : c9PersistedApp ∈ c9OutDB.apps := by decide
    have hid : c9PersistedApp.id = appCleanAnnotated.id := by decide
    have := h c9PersistedApp hmem hid p hp
    simp [this]

/-!
Lemmas for the commit sequence (C2).
-/

theorem clearRolloutEntry_deploymentId (lid : String) (p : Package) :
    (clearRolloutEntry lid p).deploymentId = p.deploymentId := by
  unfold clearRolloutEntry
  split <;> rfl

theorem clearRolloutEntry_label (lid : String) (p : Package) :
    (clearRolloutEntry lid p).label = p.label := by
  unfold clearRolloutEntry
  split <;> rfl

theorem clearRolloutEntry_uploadTime (lid : String) (p : Package) :
    (clearRolloutEntry lid p).uploadTime = p.uploadTime := by
  unfold clearRolloutEntry
  split <;> rfl

/-- The rollout-clearing `UPDATE` commutes with restricting to one
deployment's packages. -/
theorem filter_dep_map_clear (pkgs : List Package) (d lid : String) :
    (pkgs.map (clearRolloutEntry lid)).filter (fun p => p.deploymentId == d) =
    (pkgs.filter (fun p => p.deploymentId == d)).map (clearRolloutEntry lid) := by
  induction pkgs with
  | nil => rfl
  | cons p ps ih =>
    by_cases hd : (p.deploymentId == d) = true
    · have hd' : ((clearRolloutEntry lid p).deploymentId == d) = true := by
        rw [clearRolloutEntry_deploymentId]
        exact hd
      simp [List.filter_cons, hd, hd', ih]
    · have hd' : ((clearRolloutEntry lid p).deploymentId == d) = false := by
        rw [clearRolloutEntry_deploymentId]
        simpa using hd
      simp [List.filter_cons, hd, hd', ih]

theorem vLabels_succ (n : Nat) : vLabels (n + 1) = vLabels n ++ ["v" ++ toString (n + 1)] := by
  unfold vLabels
  rw [List.range_succ, List.map_append]
  rfl

/-- With strictly increasing upload times, the `ORDER BY "uploadTime" DESC
LIMIT 1` fold returns the last element. -/
theorem foldl_latest_eq_getLast (p : Package) (ps : List Package)
    (hpw : List.Pairwise (fun a b => a.uploadTime < b.uploadTime) (p :: ps)) :
    ps.foldl (fun best q => if q.uploadTime > best.uploadTime then q else best) p =
    (p :: ps).getLast (List.cons_ne_nil p ps) := by
  induction ps generalizing p with
  | nil => rfl
  | cons q rs ih =>
    have hpq : p.uploadTime < q.uploadTime :=
      (List.pairwise_cons.mp hpw).1 q (List.mem_cons_self q rs)
    have hq : List.Pairwise (fun a b => a.uploadTime < b.uploadTime) (q :: rs) :=
      (List.pairwise_cons.mp hpw).2
    rw [List.foldl_cons]
    have hstep : (if q.uploadTime > p.uploadTime then q else p) = q := if_pos hpq
    rw [hstep, ih q hq]
    exact (List.getLast_cons (List.cons_ne_nil q rs)).symm

/-- A deployment with no packages yields no subselect row. -/
theorem latestPackageId_nil (pkgs : List Package) (d : String)
    (h : pkgs.filter (fun p => p.deploymentId == d) = []) :
    latestPackageId pkgs d = none := by
  unfold latestPackageId
  rw [h]

/-- With strictly increasing upload times, the subselect picks the
deployment's most recently inserted package. -/
theorem latestPackageId_concat (pkgs : List Package) (d : String)
    (dq : List Package) (qlast : Package)
    (hdp : pkgs.filter (fun p => p.deploymentId == d) = dq ++ [qlast])
    (hpw : List.Pairwise (fun a b => a.uploadTime < b.uploadTime) (dq ++ [qlast])) :
    latestPackageId pkgs d = some qlast.id := by
  unfold latestPackageId
  rw [hdp]
  cases dq with
  | nil => rfl
  | cons p dq' =>
    have hpw' : List.Pairwise (fun a b => a.uploadTime < b.uploadTime) (p :: (dq' ++ [qlast])) := by
      simpa using hpw
    show some ((dq' ++ [qlast]).foldl (fun best q => if q.uploadTime > best.uploadTime then q else best) p).id = some qlast.id
    rw [foldl_latest_eq_getLast p (dq' ++ [qlast]) hpw']
    rw [List.getLast_cons (by simp)]
    rw [List.getLast_append]
    simp

theorem clearRolloutEntry_rollout_none (lid : String) (p : Package) (h : p.rollout = none) :
    (clearRolloutEntry lid p).rollout = none := by
  unfold clearRolloutEntry
  split <;> simp [h]

theorem clearRolloutEntry_rollout_self (lid : String) (p : Package) (h : (p.id == lid) = true) :
    (clearRolloutEntry lid p).rollout = none := by
  unfold clearRolloutEntry
  rw [if_pos h]

theorem map_label_clear (dp : List Package) (lid : String) :
    (dp.map (clearRolloutEntry lid)).map Package.label = dp.map Package.label := by
  induction dp with
  | nil => rfl
  | cons p ps ih => simp [clearRolloutEntry_label, ih]

theorem map_uploadTime_clear (dp : List Package) (lid : String) :
    (dp.map (clearRolloutEntry lid)).map Package.uploadTime = dp.map Package.uploadTime := by
  induction dp with
  | nil => rfl
  | cons p ps ih => simp [clearRolloutEntry_uploadTime, ih]

/-- Shape of a successful `commitPackage`: the store's package table becomes
`base ++ [newPkg]`, where `base` is the old table with the subselect's row
(if any) rollout-cleared, and the new row carries the count-based label, the
submission's upload time and rollout, and the target deployment id. -/
theorem commitPackage_ok {db db2 : DB} {acc appId d : String} {s : PackageSubmission} {pkg : Package}
    (hok : commitPackage db acc appId d s = (Except.ok pkg, db2)) :
    ∃ (base : List Package) (newPkg : Package),
      ((base = db.packages ∧ latestPackageId db.packages d = none) ∨
       (∃ lid, latestPackageId db.packages d = some lid ∧
         base = db.packages.map (clearRolloutEntry lid))) ∧
      db2.packages = base ++ [newPkg] ∧
      newPkg.deploymentId = d ∧
      newPkg.label = "v" ++ toString ((base.filter (fun p => p.deploymentId == d)).length + 1) ∧
      newPkg.uploadTime = s.uploadTime ∧
      newPkg.rollout = s.rollout := by
  unfold commitPackage at hok
  cases hdep : getDeployment db acc appId d with
  | error e => rw [hdep] at hok; cases hok
  | ok dep =>
    rw [hdep] at hok
    cases hlid : latestPackageId db.packages d with
    | none =>
      rw [hlid] at hok
      injection hok with h1 h2
      subst h2
      exact ⟨db.packages, _, Or.inl ⟨rfl, rfl⟩, rfl, rfl, rfl, rfl, rfl⟩
    | some lid =>
      rw [hlid] at hok
      injection hok with h1 h2
      subst h2
      exact ⟨db.packages.map (clearRolloutEntry lid), _, Or.inr ⟨lid, rfl, rfl⟩, rfl, rfl, rfl, rfl, rfl⟩

/-- One successful `commitPackage` against a deployment whose stored
packages carry labels `v1..vn`, cleared rollouts except possibly on the last
package, and strictly increasing upload times older than the submission's:
the labels extend to `v1..v(n+1)`, every package except the newly inserted
one has a cleared rollout, the upload-time sequence extends by the
submission's time, and the count grows by one. -/
theorem commitPackage_step (db db2 : DB) (acc appId d : String) (s : PackageSubmission) (pkg : Package)
    (hlab : (deploymentPackages db d).map Package.label = vLabels (deploymentPackages db d).length)
    (hroll : ∀ p ∈ (deploymentPackages db d).dropLast, p.rollout = none)
    (hpwp : List.Pairwise (fun a b => a.uploadTime < b.uploadTime) (deploymentPackages db d))
    (hok : commitPackage db acc appId d s = (Except.ok pkg, db2)) :
    (deploymentPackages db2 d).map Package.label = vLabels (deploymentPackages db2 d).length ∧
    (∀ p ∈ (deploymentPackages db2 d).dropLast, p.rollout = none) ∧
    (deploymentPackages db2 d).map Package.uploadTime =
      (deploymentPackages db d).map Package.uploadTime ++ [s.uploadTime] ∧
    (deploymentPackages db2 d).length = (deploymentPackages db d).length + 1 := by
  obtain ⟨base, newPkg, hbase, hpk2, hNPd, hNPlab, hNPt, -⟩ := commitPackage_ok hok
  unfold deploymentPackages at hlab hroll hpwp ⊢
  have hNPfil : List.filter (fun p => p.deploymentId == d) [newPkg] = [newPkg] := by
    simp [List.filter, hNPd]
  have hdp2 : db2.packages.filter (fun p => p.deploymentId == d) =
      base.filter (fun p => p.deploymentId == d) ++ [newPkg] := by
    rw [hpk2, List.filter_append, hNPfil]
  rcases hbase with ⟨hbid, hlidnone⟩ | ⟨lid, hlidsome, hbid⟩
  · -- no package row was cleared: the deployment had no packages
    subst hbid
    have hdpnil : db.packages.filter (fun p => p.deploymentId == d) = [] := by
      unfold latestPackageId at hlidnone
      cases hf : db.packages.filter (fun p => p.deploymentId == d) with
      | nil => rfl
      | cons q qs => rw [hf] at hlidnone; cases hlidnone
    rw [hdp2, hdpnil]
    refine ⟨?_, ?_, ?_, ?_⟩
    · simp [hNPlab, hdpnil, vLabels, List.range_succ]
    · simp
    · simp [hNPt]
    · simp
  · -- the deployment was nonempty; its most recent package was cleared
    subst hbid
    have hne : db.packages.filter (fun p => p.deploymentId == d) ≠ [] := by
      intro hnil
      rw [latestPackageId_nil db.packages d hnil] at hlidsome
      cases hlidsome
    have hdecomp := List.dropLast_append_getLast hne
    have hlast := latestPackageId_concat db.packages d
      ((db.packages.filter (fun p => p.deploymentId == d)).dropLast)
      ((db.packages.filter (fun p => p.deploymentId == d)).getLast hne)
      hdecomp.symm (by rw [hdecomp]; exact hpwp)
    have hlid2 : lid = ((db.packages.filter (fun p => p.deploymentId == d)).getLast hne).id := by
      rw [hlast] at hlidsome
      injection hlidsome with h
      exact h.symm
    have hfilmap : (db.packages.map (clearRolloutEntry lid)).filter (fun p => p.deploymentId == d) =
        (db.packages.filter (fun p => p.deploymentId == d)).map (clearRolloutEntry lid) :=
      filter_dep_map_clear db.packages d lid
    have hclear : ∀ q ∈ (db.packages.filter (fun p => p.deploymentId == d)).map (clearRolloutEntry lid),
        q.rollout = none := by
      intro q hq
      obtain ⟨p, hp, rfl⟩ := List.mem_map.mp hq
      rw [← hdecomp] at hp
      rcases List.mem_append.mp hp with hinit | hlastmem
      · exact clearRolloutEntry_rollout_none lid p (hroll p hinit)
      · have hpl : p = (db.packages.filter (fun p => p.deploymentId == d)).getLast hne := by
          simpa using hlastmem
        apply clearRolloutEntry_rollout_self
        rw [hpl, hlid2]
        exact beq_self_eq_true _
    have hlen : ((db.packages.map (clearRolloutEntry lid)).filter
        (fun p => p.deploymentId == d)).length =
        (db.packages.filter (fun p => p.deploymentId == d)).length := by
      rw [hfilmap, List.length_map]
    rw [hdp2, hfilmap]
    refine ⟨?_, ?_, ?_, ?_⟩
    · rw [List.map_append, map_label_clear, hlab]
      simp only [List.map_cons, List.map_nil, hNPlab, hlen, List.length_append,
        List.length_map, List.length_cons, List.length_nil]
      exact (vLabels_succ _).symm
    · rw [List.dropLast_concat]
      exact hclear
    · rw [List.map_append, map_uploadTime_clear]
      simp only [List.map_cons, List.map_nil, hNPt]
    · simp

/-- A list whose every element but the last has `rollout = NULL` holds at
most one package with a non-null rollout. -/
theorem rollout_count_le_one (l : List Package) (h : ∀ p ∈ l.dropLast, p.rollout = none) :
    (l.filter (fun p => p.rollout.isSome)).length ≤ 1 := by
  rcases List.eq_nil_or_concat l with rfl | ⟨init, a, rfl⟩
  · simp
  · rw [List.concat_eq_append] at h ⊢
    rw [List.dropLast_concat] at h
    rw [List.filter_append]
    have hinit : init.filter (fun p => p.rollout.isSome) = [] := by
      rw [List.filter_eq_nil_iff]
      intro p hp
      simp [h p hp]
    rw [hinit, List.nil_append]
    exact (List.length_filter_le _ _).trans (by simp)

/-- The commit-sequence invariant, folded through `runCommits`. -/
theorem runCommits_inv (acc appId d : String) (subs : List PackageSubmission) :
    ∀ db db', runCommits db acc appId d subs = Except.ok db' →
    (deploymentPackages db d).map Package.label = vLabels (deploymentPackages db d).length →
    (∀ p ∈ (deploymentPackages db d).dropLast, p.rollout = none) →
    List.Pairwise (fun a b => a < b)
      ((deploymentPackages db d).map Package.uploadTime ++ subs.map PackageSubmission.uploadTime) →
    (deploymentPackages db' d).map Package.label = vLabels (deploymentPackages db' d).length ∧
    (∀ p ∈ (deploymentPackages db' d).dropLast, p.rollout = none) ∧
    (deploymentPackages db' d).length = (deploymentPackages db d).length + subs.length := by
  induction subs with
  | nil =>
    intro db db' hrun hlab hroll hpw
    unfold runCommits at hrun
    injection hrun with h
    subst h
    exact ⟨hlab, hroll, rfl⟩
  | cons s rest ih =>
    intro db db' hrun hlab hroll hpw
    unfold runCommits at hrun
    cases hcp : commitPackage db acc appId d s with
    | mk r db2 =>
      rw [hcp] at hrun
      cases r with
      | error e => simp at hrun
      | ok pkg =>
        have hparts := List.pairwise_append.mp hpw
        have hpwp : List.Pairwise (fun a b : Package => a.uploadTime < b.uploadTime)
            (deploymentPackages db d) := List.pairwise_map.mp hparts.1
        obtain ⟨hlab2, hroll2, htimes2, hlen2⟩ :=
          commitPackage_step db db2 acc appId d s pkg hlab hroll hpwp hcp
        have hpw2 : List.Pairwise (fun a b => a < b)
            ((deploymentPackages db2 d).map Package.uploadTime ++
              rest.map PackageSubmission.uploadTime) := by
          rw [htimes2, List.append_assoc]
          simpa using hpw
        have hres := ih db2 db' hrun hlab2 hroll2 hpw2
        refine ⟨hres.1, hres.2.1, ?_⟩
        rw [hres.2.2, hlen2]
        simp only [List.length_cons]
        omega

/-- C2 (amended): starting from a deployment with no stored packages, a run
of sequential successful `commitPackage` calls whose submissions carry
strictly increasing upload times — the normal sequential case, since the
callers stamp each release with the wall clock — leaves labels exactly
`v1..vN` in commit order (each computed as `"v" + (count + 1)`), clears
`rollout` on everything except the newest package (each commit nulls the
rollout of the package with the most recent upload time, i.e. its
predecessor), and hence leaves at most one package with a non-null rollout.
With non-monotone caller-supplied upload times the rollout-clearing can miss
the just-committed package and leave two staged rollouts (see the
counterexample), so the monotonicity proviso is necessary. -/
theorem c2_commit_sequence (db db' : DB) (acc appId d : String) (subs : List PackageSubmission)
    (hempty : deploymentPackages db d = [])
    (hmono : List.Pairwise (fun s t => s.uploadTime < t.uploadTime) subs)
    (hrun : runCommits db acc appId d subs = Except.ok db') :
    (deploymentPackages db' d).map Package.label = vLabels subs.length ∧
    (∀ p ∈ (deploymentPackages db' d).dropLast, p.rollout = none) ∧
    ((deploymentPackages db' d).filter (fun p => p.rollout.isSome)).length ≤ 1 := by
  have h0lab : (deploymentPackages db d).map Package.label =
      vLabels (deploymentPackages db d).length := by
    rw [hempty]
    rfl
  have h0roll : ∀ p ∈ (deploymentPackages db d).dropLast, p.rollout = none := by
    rw [hempty]
    intro p hp
    cases hp
  have h0pw : List.Pairwise (fun a b => a < b)
      ((deploymentPackages db d).map Package.uploadTime ++
        subs.map PackageSubmission.uploadTime) := by
    rw [hempty]
    simpa using List.pairwise_map.mpr hmono
  obtain ⟨hlab', hroll', hlen'⟩ := runCommits_inv acc appId d subs db db' hrun h0lab h0roll h0pw
  have hlenfinal : (deploymentPackages db' d).length = subs.length := by
    rw [hlen', hempty]
    simp
  refine ⟨by rw [hlab', hlenfinal], hroll', rollout_count_le_one _ hroll'⟩

/-- C2 counterexample: three sequential successful commits whose
caller-supplied upload times are not monotone (10, 5, 7) leave two packages
with non-null rollout — the third commit clears the rollout of the
upload-time-latest package (the first one, already null) instead of its
actual predecessor, so "at most one stored package has a non-null rollout"
fails as stated. -/
theorem c2_counterexample :
    (runCommits storePkg "a1" "app1" "dep1"
      [mkSubmission 10 (some 50), mkSubmission 5 (some 40), mkSubmission 7 (some 30)]).map
      (fun dbf => ((deploymentPackages dbf "dep1").filter (fun p => p.rollout.isSome)).length) =
    Except.ok 2 := by
  decide

/-- C2 witness: committing `c2Subs` (times 10 < 20 < 30) to the fresh
deployment `dep1` yields labels `v1, v2, v3` and at most one staged rollout. -/
theorem c2_witness :
    (deploymentPackages c2OutDB "dep1").map Package.label = vLabels 3 ∧
    ((deploymentPackages c2OutDB "dep1").filter (fun p => p.rollout.isSome)).length ≤ 1 := by
  obtain ⟨h1, h2, h3⟩ := c2_commit_sequence storePkg c2OutDB "a1" "app1" "dep1" c2Subs
    (by decide) (by decide) (by decide)
  exact ⟨h1, h3⟩

/-!
Counting lemmas over the collaborator map (C1).
-/

/-- A function on entries that never changes the `accountId`. -/
def accountIdFixed (f : String × CollaboratorProperties → String × CollaboratorProperties) : Prop :=
  ∀ p, (f p).2.accountId = p.2.accountId

theorem ownerCount_cons (p : String × CollaboratorProperties) (ps : CollaboratorMap) :
    ownerCount (p :: ps) =
      (if (p.2.permission == Permission.Owner) = true then 1 else 0) + ownerCount ps := by
  unfold ownerCount
  rw [List.filter_cons]
  split <;> simp [Nat.add_comm]

theorem ownerCount_append (m : CollaboratorMap) (k : String) (v : CollaboratorProperties) :
    ownerCount (m ++ [(k, v)]) =
      ownerCount m + (if (v.permission == Permission.Owner) = true then 1 else 0) := by
  unfold ownerCount
  rw [List.filter_append, List.length_append]
  congr 1
  by_cases h : (v.permission == Permission.Owner) = true <;> simp [List.filter, h]

theorem keys_map_keyFixed {f : String × CollaboratorProperties → String × CollaboratorProperties}
    (hf : keyFixed f) (m : CollaboratorMap) :
    (m.map f).map Prod.fst = m.map Prod.fst := by
  induction m with
  | nil => rfl
  | cons p ps ih => simp [hf p, ih]

theorem keysNodup_map {f : String × CollaboratorProperties → String × CollaboratorProperties}
    (hf : keyFixed f) (m : CollaboratorMap) (hN : keysNodup m) : keysNodup (m.map f) := by
  unfold keysNodup at *
  rw [keys_map_keyFixed hf]
  exact hN

theorem ownerCount_map {f : String × CollaboratorProperties → String × CollaboratorProperties}
    (hf : permFixed f) (m : CollaboratorMap) : ownerCount (m.map f) = ownerCount m := by
  induction m with
  | nil => rfl
  | cons p ps ih =>
    rw [List.map_cons, ownerCount_cons, ownerCount_cons, ih, hf p]

theorem keysNodup_delete (m : CollaboratorMap) (k : String) (hN : keysNodup m) :
    keysNodup (cmDelete m k) := by
  unfold keysNodup at *
  exact ((List.filter_sublist m).map Prod.fst).nodup hN

theorem keysNodup_append_fresh (m : CollaboratorMap) (k : String) (v : CollaboratorProperties)
    (hN : keysNodup m) (habs : m.find? (fun p => p.1 == k) = none) :
    keysNodup (m ++ [(k, v)]) := by
  unfold keysNodup at *
  rw [List.map_append, List.nodup_append]
  refine ⟨hN, List.nodup_singleton _, ?_⟩
  intro x hx hx2
  have hxk : x = k := by simpa using hx2
  obtain ⟨p, hp, hpx⟩ := List.mem_map.mp hx
  have := List.find?_eq_none.mp habs p hp
  exact this (by simp [hpx, hxk])

theorem setPerm_no_key (m : CollaboratorMap) (k : String) (perm : Permission)
    (hall : ∀ p ∈ m, ¬ (p.1 == k) = true) : m.map (setPermEntry k perm) = m := by
  induction m with
  | nil => rfl
  | cons p ps ih =>
    rw [List.map_cons, show setPermEntry k perm p = p from by
      unfold setPermEntry; rw [if_neg (hall p (List.mem_cons_self p ps))]]
    rw [ih (fun q hq => hall q (List.mem_cons_of_mem p hq))]

theorem cmGet_none_find? {m : CollaboratorMap} {k : String} (habs : cmGet m k = none) :
    m.find? (fun p => p.1 == k) = none := by
  unfold cmGet at habs
  cases hf : m.find? (fun p => p.1 == k) with
  | none => rfl
  | some p => rw [hf] at habs; cases habs

/-- `m[k] = v` at an absent key appends the fresh entry. -/
theorem cmSet_absent (m : CollaboratorMap) (k : String) (v : CollaboratorProperties)
    (habs : cmGet m k = none) : cmSet m k v = m ++ [(k, v)] := by
  unfold cmSet
  rw [cmGet_none_find? habs]
  rfl

theorem cmGet_cons_self {p : String × CollaboratorProperties} {ps : CollaboratorMap} {k : String}
    (h : (p.1 == k) = true) : cmGet (p :: ps) k = some p.2 := by
  unfold cmGet
  simp [List.find?, h]

theorem cmGet_cons_other {p : String × CollaboratorProperties} {ps : CollaboratorMap} {k : String}
    (h : ¬ (p.1 == k) = true) : cmGet (p :: ps) k = cmGet ps k := by
  have h' : (p.1 == k) = false := by simpa using h
  unfold cmGet
  simp [List.find?, h']

/-- Demoting the key holding `Owner` drops the owner count by one. -/
theorem ownerCount_demote (m : CollaboratorMap) (k : String) (c : CollaboratorProperties)
    (hN : keysNodup m) (hget : cmGet m k = some c) (hc : c.permission = Permission.Owner) :
    ownerCount (cmSetPermission m k Permission.Collaborator) + 1 = ownerCount m := by
  induction m with
  | nil => cases hget
  | cons p ps ih =>
    by_cases hp : (p.1 == k) = true
    · have hc2 : p.2 = c := by
        have := @cmGet_cons_self p ps k hp
        rw [this] at hget
        injection hget
      have hrest : ps.map (setPermEntry k Permission.Collaborator) = ps := by
        apply setPerm_no_key
        intro q hq hqk
        have hkeys := hN
        unfold keysNodup at hkeys
        rw [List.map_cons] at hkeys
        have hnotin := (List.nodup_cons.mp hkeys).1
        have : q.1 = k := by simpa using hqk
        have hpk : p.1 = k := by simpa using hp
        exact hnotin (by
          rw [hpk, ← this]
          exact List.mem_map_of_mem Prod.fst hq)
      unfold cmSetPermission
      rw [List.map_cons, hrest]
      rw [show setPermEntry k Permission.Collaborator p =
        (p.1, { p.2 with permission := Permission.Collaborator }) from by
          unfold setPermEntry; rw [if_pos hp]]
      rw [ownerCount_cons, ownerCount_cons]
      rw [hc2, hc]
      simp
      omega
    · have hget' : cmGet ps k = some c := by
        rw [← @cmGet_cons_other p ps k hp]
        exact hget
      have hN' : keysNodup ps := by
        unfold keysNodup at hN ⊢
        rw [List.map_cons] at hN
        exact (List.nodup_cons.mp hN).2
      unfold cmSetPermission at ih ⊢
      rw [List.map_cons]
      rw [show setPermEntry k Permission.Collaborator p = p from by
        unfold setPermEntry; rw [if_neg hp]]
      rw [ownerCount_cons, ownerCount_cons]
      have := ih hN' hget'
      omega

/-- Promoting a key that holds a non-`Owner` entry raises the owner count by
one. -/
theorem ownerCount_promote (m : CollaboratorMap) (k : String) (c : CollaboratorProperties)
    (hN : keysNodup m) (hget : cmGet m k = some c) (hc : c.permission ≠ Permission.Owner) :
    ownerCount (cmSetPermission m k Permission.Owner) = ownerCount m + 1 := by
  induction m with
  | nil => cases hget
  | cons p ps ih =>
    by_cases hp : (p.1 == k) = true
    · have hc2 : p.2 = c := by
        have := @cmGet_cons_self p ps k hp
        rw [this] at hget
        injection hget
      have hrest : ps.map (setPermEntry k Permission.Owner) = ps := by
        apply setPerm_no_key
        intro q hq hqk
        have hkeys := hN
        unfold keysNodup at hkeys
        rw [List.map_cons] at hkeys
        have hnotin := (List.nodup_cons.mp hkeys).1
        have : q.1 = k := by simpa using hqk
        have hpk : p.1 = k := by simpa using hp
        exact hnotin (by
          rw [hpk, ← this]
          exact List.mem_map_of_mem Prod.fst hq)
      unfold cmSetPermission
      rw [List.map_cons, hrest]
      rw [show setPermEntry k Permission.Owner p =
        (p.1, { p.2 with permission := Permission.Owner }) from by
          unfold setPermEntry; rw [if_pos hp]]
      rw [ownerCount_cons, ownerCount_cons]
      have hpc : ¬ (p.2.permission == Permission.Owner) = true := by
        rw [hc2]
        simpa using hc
      rw [if_neg hpc]
      simp [Nat.add_comm]
    · have hget' : cmGet ps k = some c := by
        rw [← @cmGet_cons_other p ps k hp]
        exact hget
      have hN' : keysNodup ps := by
        unfold keysNodup at hN ⊢
        rw [List.map_cons] at hN
        exact (List.nodup_cons.mp hN).2
      unfold cmSetPermission at ih ⊢
      rw [List.map_cons]
      rw [show setPermEntry k Permission.Owner p = p from by
        unfold setPermEntry; rw [if_neg hp]]
      rw [ownerCount_cons, ownerCount_cons]
      have := ih hN' hget'
      omega

/-- Deleting a key that does not hold `Owner` preserves the owner count. -/
theorem ownerCount_delete (m : CollaboratorMap) (k : String)
    (hN : keysNodup m) (hno : isOwner m k = false) :
    ownerCount (cmDelete m k) = ownerCount m := by
  induction m with
  | nil => rfl
  | cons p ps ih =>
    have hN' : keysNodup ps := by
      unfold keysNodup at hN ⊢
      rw [List.map_cons] at hN
      exact (List.nodup_cons.mp hN).2
    by_cases hp : (p.1 == k) = true
    · have hrest : cmDelete ps k = ps := by
        unfold cmDelete
        rw [List.filter_eq_self]
        intro q hq
        unfold keysNodup at hN
        rw [List.map_cons] at hN
        have hnotin := (List.nodup_cons.mp hN).1
        have hpk : p.1 = k := by simpa using hp
        have : q.1 ≠ k := by
          intro hqk
          exact hnotin (by rw [hpk, ← hqk]; exact List.mem_map_of_mem Prod.fst hq)
        simpa using this
      have hpperm : ¬ (p.2.permission == Permission.Owner) = true := by
        unfold isOwner at hno
        rw [@cmGet_cons_self p ps k hp] at hno
        simpa using hno
      unfold cmDelete
      rw [List.filter_cons]
      rw [if_neg (by simpa using hp)]
      have : List.filter (fun p => p.1 != k) ps = ps := hrest
      rw [this, ownerCount_cons, if_neg hpperm]
      omega
    · have hno' : isOwner ps k = false := by
        unfold isOwner at hno ⊢
        rw [@cmGet_cons_other p ps k hp] at hno
        exact hno
      unfold cmDelete at ih ⊢
      rw [List.filter_cons]
      rw [if_pos (by simpa using hp)]
      rw [ownerCount_cons, ownerCount_cons, ih hN' hno']

theorem cmGet_setPerm_self (m : CollaboratorMap) (k : String) (perm : Permission) :
    cmGet (cmSetPermission m k perm) k =
      (cmGet m k).map (fun c => { c with permission := perm }) := by
  unfold cmGet cmSetPermission
  rw [find?_map_keyFixed (setPermEntry_keyFixed k perm)]
  cases hf : m.find? (fun p => p.1 == k) with
  | none => rfl
  | some p =>
    have hp0 := List.find?_some hf
    simp only at hp0
    simp [setPermEntry, hp0]

theorem cmGet_setPerm_other (m : CollaboratorMap) (k k' : String) (perm : Permission)
    (hne : k' ≠ k) : cmGet (cmSetPermission m k perm) k' = cmGet m k' := by
  unfold cmGet cmSetPermission
  rw [find?_map_keyFixed (setPermEntry_keyFixed k perm)]
  cases hf : m.find? (fun p => p.1 == k') with
  | none => rfl
  | some p =>
    have hp0 := List.find?_some hf
    have hp : p.1 = k' := by simpa using hp0
    have hk : ¬ (p.1 == k) = true := by simp [hp, hne]
    simp [setPermEntry, hk]

theorem cmGet_some_mem {m : CollaboratorMap} {k : String} {c : CollaboratorProperties}
    (h : cmGet m k = some c) : (k, c) ∈ m := by
  unfold cmGet at h
  cases hf : m.find? (fun p => p.1 == k) with
  | none => rw [hf] at h; cases h
  | some p =>
    rw [hf] at h
    injection h with h2
    have hm := List.mem_of_find?_eq_some hf
    have hk : p.1 = k := by simpa using List.find?_some hf
    have hpkc : p = (k, c) := by
      cases p with
      | mk x y =>
        simp only at hk h2
        rw [hk, h2]
    rw [← hpkc]
    exact hm

/-!
Store-level invariant lemmas (C1).
-/

theorem backed_map {f : String × CollaboratorProperties → String × CollaboratorProperties}
    (hfk : keyFixed f) (hfa : accountIdFixed f) (db : DB) (aid : String) (m : CollaboratorMap)
    (hB : ∀ p ∈ m, entryBacked db aid p) : ∀ p ∈ m.map f, entryBacked db aid p := by
  intro p hp
  obtain ⟨q, hq, rfl⟩ := List.mem_map.mp hp
  obtain ⟨⟨acct, hacct, he, hi⟩, ⟨l, hl, hla, hlb⟩⟩ := hB q hq
  exact ⟨⟨acct, hacct, by rw [he, hfk q], by rw [hi, hfa q]⟩,
         ⟨l, hl, by rw [hla, hfa q], hlb⟩⟩

theorem annotateEntry_accountIdFixed (accountId : String) :
    accountIdFixed (annotateEntry accountId) := annotateEntry_accountId accountId

theorem stripEntry_accountIdFixed : accountIdFixed stripEntry := stripEntry_accountId

theorem setPermEntry_accountIdFixed (k : String) (perm : Permission) :
    accountIdFixed (setPermEntry k perm) := setPermEntry_accountId k perm

/-- Overwriting every app row of one id with a well-formed name and map
keeps the store well-formed, provided every row of a *different* id was
well-formed before. -/
theorem inv_write_app (db : DB) (appId newName : String) (newMap : CollaboratorMap)
    (hacc : AccountsOk db)
    (happs : ∀ a ∈ db.apps, (a.id == appId) = false → AppOk db a)
    (hN : keysNodup newMap) (hO : ownerCount newMap = 1)
    (hB : ∀ p ∈ newMap, entryBacked db appId p) :
    Inv { db with apps := db.apps.map (fun a =>
      if a.id == appId then { a with name := newName, collaborators := newMap } else a) } := by
  refine ⟨hacc, ?_⟩
  intro a ha
  obtain ⟨orig, horig, rfl⟩ := List.mem_map.mp ha
  by_cases hco : (orig.id == appId) = true
  · rw [if_pos hco]
    have hid : orig.id = appId := by simpa using hco
    refine ⟨hN, hO, ?_⟩
    intro p hp
    have hb := hB p hp
    unfold entryBacked at hb ⊢
    simpa [hid] using hb
  · rw [if_neg hco]
    have := happs orig horig (by simpa using hco)
    exact this

/-- `addAppPointer` keeps the accounts and apps tables intact. -/
theorem addAppPointer_accounts (db : DB) (aid appId : String) :
    (addAppPointer db aid appId).2.accounts = db.accounts := by
  unfold addAppPointer
  split <;> rfl

theorem addAppPointer_apps (db : DB) (aid appId : String) :
    (addAppPointer db aid appId).2.apps = db.apps := by
  unfold addAppPointer
  split <;> rfl

/-- Whether it inserts or hits the primary key, after `addAppPointer` the
link row is present. -/
theorem addAppPointer_link (db : DB) (aid appId : String) :
    ∃ l ∈ (addAppPointer db aid appId).2.accountToAppsMap,
      l.accountId = aid ∧ l.appId = appId := by
  unfold addAppPointer
  by_cases h : (db.accountToAppsMap.any (fun l => l.accountId == aid && l.appId == appId)) = true
  · rw [if_pos h]
    obtain ⟨l, hl, hcond⟩ := List.any_eq_true.mp h
    refine ⟨l, hl, ?_, ?_⟩ <;> simp_all
  · rw [if_neg h]
    exact ⟨{ accountId := aid, appId := appId }, List.mem_append_right _ (by simp), rfl, rfl⟩

theorem addAppPointer_super (db : DB) (aid appId : String) (l : AccountAppLink)
    (h : l ∈ db.accountToAppsMap) : l ∈ (addAppPointer db aid appId).2.accountToAppsMap := by
  unfold addAppPointer
  split
  · exact h
  · exact List.mem_append_left _ h

/-- A successful (awaited) `addAppPointer` means the pair was absent. -/
theorem addAppPointer_ok {db db2 : DB} {aid appId : String} {u : Unit}
    (h : addAppPointer db aid appId = (Except.ok u, db2)) :
    (db.accountToAppsMap.any (fun l => l.accountId == aid && l.appId == appId)) = false ∧
    db2 = { db with accountToAppsMap := db.accountToAppsMap ++ [{ accountId := aid, appId := appId }] } := by
  unfold addAppPointer at h
  by_cases hc : (db.accountToAppsMap.any (fun l => l.accountId == aid && l.appId == appId)) = true
  · rw [if_pos hc] at h
    cases h
  · rw [if_neg hc] at h
    injection h with h1 h2
    exact ⟨by simpa using hc, h2.symm⟩

/-- Growing the link table preserves an app row's well-formedness. -/
theorem appOk_addLink (db : DB) (l0 : AccountAppLink) (a : App) (h : AppOk db a) :
    AppOk { db with accountToAppsMap := db.accountToAppsMap ++ [l0] } a := by
  obtain ⟨hN, hO, hB⟩ := h
  refine ⟨hN, hO, ?_⟩
  intro p hp
  obtain ⟨⟨acct, hacct, he, hi⟩, ⟨l, hl, hla, hlb⟩⟩ := hB p hp
  exact ⟨⟨acct, hacct, he, hi⟩, ⟨l, List.mem_append_left _ hl, hla, hlb⟩⟩

theorem appOk_addAppPointer (db : DB) (aid appId : String) (a : App) (h : AppOk db a) :
    AppOk (addAppPointer db aid appId).2 a := by
  unfold addAppPointer
  split
  · exact h
  · exact appOk_addLink db _ a h

/-- An app row's well-formedness only reads the accounts and link tables, so
it transfers to any store with the same accounts and a superset of links. -/
theorem appOk_of_fields (db db' : DB) (ha : db'.accounts = db.accounts)
    (hl : ∀ l ∈ db.accountToAppsMap, l ∈ db'.accountToAppsMap) (a : App)
    (h : AppOk db a) : AppOk db' a := by
  obtain ⟨hN, hO, hB⟩ := h
  refine ⟨hN, hO, ?_⟩
  intro p hp
  obtain ⟨⟨acct, hacct, he, hi⟩, ⟨l, hlm, hla, hlb⟩⟩ := hB p hp
  exact ⟨⟨acct, by rw [ha]; exact hacct, he, hi⟩, ⟨l, hl l hlm, hla, hlb⟩⟩

/-- Shape of a successful `addApp`: the app row is inserted with the creator
as sole `Owner`, and the owner's visibility link is appended. -/
theorem addApp_ok {db db2 : DB} {accountId : String} {app retApp : App}
    (h : addApp db accountId app = (Except.ok retApp, db2)) :
    ∃ account, getAccount db accountId = Except.ok account ∧
      db2 = { db with
              apps := db.apps ++ [{ id := genId db.freshId, name := app.name,
                                    collaborators := [(account.email,
                                      { accountId := accountId, permission := Permission.Owner, isCurrentAccount := none })] }],
              accountToAppsMap := db.accountToAppsMap ++
                [{ accountId := account.id, appId := genId db.freshId }],
              freshId := db.freshId + 1 } := by
  unfold addApp at h
  cases hacc : getAccount db accountId with
  | error e => rw [hacc] at h; cases h
  | ok account =>
    rw [hacc] at h
    simp only [] at h
    split at h
    · simp at h
    · rename_i u db3 heq
      obtain ⟨hdup, hdb3⟩ := addAppPointer_ok heq
      injection h with h1 h2
      refine ⟨account, rfl, ?_⟩
      rw [← h2, hdb3]

/-- `addApp` preserves the store invariant. -/
theorem addApp_inv {db db2 : DB} {accountId : String} {app retApp : App}
    (hInv : Inv db) (h : addApp db accountId app = (Except.ok retApp, db2)) : Inv db2 := by
  obtain ⟨account, hacc, rfl⟩ := addApp_ok h
  obtain ⟨haccOk, happs⟩ := hInv
  obtain ⟨haccmem, haccid⟩ := getAccount_mem hacc
  refine ⟨haccOk, ?_⟩
  intro a ha
  rcases List.mem_append.mp ha with hold | hnew
  · refine appOk_of_fields db _ ?_ ?_ a (happs a hold)
    · rfl
    · intro l hl
      exact List.mem_append_left _ hl
  · have ha2 : a = { id := genId db.freshId, name := app.name,
                     collaborators := [(account.email,
                       { accountId := accountId, permission := Permission.Owner, isCurrentAccount := none })] } := by
      simpa using hnew
    subst ha2
    refine ⟨by simp [keysNodup], by simp [ownerCount, List.filter], ?_⟩
    intro p hp
    have hp2 : p = (account.email,
        { accountId := accountId, permission := Permission.Owner, isCurrentAccount := none }) := by
      simpa using hp
    subst hp2
    refine ⟨⟨account, haccmem, rfl, haccid⟩, ?_⟩
    exact ⟨{ accountId := account.id, appId := genId db.freshId },
      List.mem_append_right _ (by simp), by simp [haccid], rfl⟩

/-- The annotation pass preserves every map property the invariant needs. -/
theorem appOk_annotate (db : DB) (stored : App) (aid : String) (h : AppOk db stored) :
    keysNodup (addIsCurrentAccountProperty stored aid).collaborators ∧
    ownerCount (addIsCurrentAccountProperty stored aid).collaborators = 1 ∧
    ∀ p ∈ (addIsCurrentAccountProperty stored aid).collaborators,
      entryBacked db stored.id p := by
  obtain ⟨hN, hO, hB⟩ := h
  refine ⟨keysNodup_map (annotateEntry_keyFixed aid) _ hN, ?_, ?_⟩
  · show ownerCount (stored.collaborators.map (annotateEntry aid)) = 1
    rw [ownerCount_map (annotateEntry_permFixed aid)]
    exact hO
  · exact backed_map (annotateEntry_keyFixed aid) (annotateEntry_accountIdFixed aid)
      db stored.id _ hB

/-- In a well-formed store, a collaborator entry keyed by a stored account's
email names exactly that account. -/
theorem entry_accountId_eq (db : DB) (a : App) (hOk : AppOk db a) (hacc : AccountsOk db)
    (k : String) (c : CollaboratorProperties) (acct : Account)
    (hmem : (k, c) ∈ a.collaborators) (hacct : acct ∈ db.accounts) (hk : acct.email = k) :
    c.accountId = acct.id := by
  obtain ⟨-, -, hB⟩ := hOk
  obtain ⟨⟨acct', hacct', he', hi'⟩, -⟩ := hB (k, c) hmem
  have heq : acct' = acct :=
    List.inj_on_of_nodup_map hacc.2.1 hacct' hacct (by rw [he', hk])
  rw [← hi', heq]

/-- `removeCollaborator` preserves the store invariant. -/
theorem removeCollaborator_inv {db db2 : DB} {accountId appId email : String} {u : Unit}
    (hInv : Inv db) (h : removeCollaborator db accountId appId email = (Except.ok u, db2)) :
    Inv db2 := by
  obtain ⟨haccOk, happs⟩ := hInv
  cases happ : getApp db accountId appId with
  | error e => simp [removeCollaborator, happ] at h
  | ok app =>
    cases hown : isOwner app.collaborators email with
    | true => simp [removeCollaborator, happ, hown] at h
    | false =>
      cases htgt : getAccountByEmail db (toLowerCase email) with
      | error e => simp [removeCollaborator, happ, hown, htgt] at h
      | ok target =>
        cases hic : isCollaborator app.collaborators email with
        | false => simp [removeCollaborator, happ, hown, htgt, hic] at h
        | true =>
          cases hid0 : (target.id == "") with
          | true => simp [removeCollaborator, happ, hown, htgt, hic, hid0] at h
          | false =>
            have hupd : updateApp (removeAppPointer db target.id appId) accountId
                { app with collaborators := cmDelete app.collaborators email } false =
                (Except.ok u, db2) := by
              simpa [removeCollaborator, happ, hown, htgt, hic, hid0] using h
            obtain ⟨account0, stored, hacc0, hfind, happeq, hstid⟩ := getApp_inv happ
            have hstOk : AppOk db stored := happs stored (List.mem_of_find?_eq_some hfind)
            obtain ⟨hNa, hOa, hBa⟩ := appOk_annotate db stored account0.id hstOk
            have hmapeq : app.collaborators =
                stored.collaborators.map (annotateEntry account0.id) := by
              rw [happeq]
              rfl
            obtain ⟨htmem, htemail⟩ := getAccountByEmail_mem htgt
            -- the raw email is already lowercase: it keys an entry whose
            -- backing account stores it lowercased
            have hlow : toLowerCase email = email := by
              cases hg : cmGet app.collaborators email with
              | none =>
                unfold isCollaborator at hic
                rw [hg] at hic
                cases hic
              | some cr =>
                have hmem := cmGet_some_mem hg
                rw [hmapeq] at hmem
                obtain ⟨⟨acctr, hacctr, her, -⟩, -⟩ := hBa (email, cr) hmem
                have her2 : acctr.email = email := her
                rw [← her2]
                exact haccOk.1 acctr hacctr
            have htemail2 : target.email = email := by rw [htemail, hlow]
            have hNapp : keysNodup app.collaborators := by
              rw [happeq]
              exact hNa
            have hOapp : ownerCount app.collaborators = 1 := by
              rw [happeq]
              exact hOa
            have hBapp : ∀ p ∈ app.collaborators, entryBacked db stored.id p := by
              rw [happeq]
              exact hBa
            have happid : app.id = appId := getApp_id happ
            have happid2 : app.id = stored.id := by
              rw [happeq]
              rfl
            -- survivors of the deletion never reference the target account
            have hsurv : ∀ x c, (x, c) ∈ cmDelete app.collaborators email →
                c.accountId ≠ target.id := by
              intro x c hxc hcid
              have hxmem : (x, c) ∈ app.collaborators := List.mem_of_mem_filter hxc
              have hxne : x ≠ email := by
                have := (List.mem_filter.mp hxc).2
                simpa using this
              obtain ⟨⟨acct', hacct', he', hi'⟩, -⟩ := hBapp (x, c) hxmem
              have he2 : acct'.email = x := he'
              have hi2 : acct'.id = c.accountId := hi'
              have hsame : acct' = target :=
                List.inj_on_of_nodup_map haccOk.2.2 hacct' htmem (by rw [hi2, hcid])
              exact hxne (by rw [← he2, hsame, htemail2])
            rw [updateApp_ok hupd]
            apply inv_write_app
            · exact haccOk
            · intro a ha hne
              have hne2 : a.id ≠ appId := by
                intro hcontra
                have hx : (a.id == (removeIsCurrentAccountProperty
                    { app with collaborators := cmDelete app.collaborators email }).id) = true := by
                  show (a.id == app.id) = true
                  simp [hcontra, happid]
                rw [hx] at hne
                cases hne
              obtain ⟨hN', hO', hB'⟩ := happs a ha
              refine ⟨hN', hO', ?_⟩
              intro p hp
              obtain ⟨hacct', ⟨l, hlm, hla, hlb⟩⟩ := hB' p hp
              refine ⟨hacct', ⟨l, ?_, hla, hlb⟩⟩
              show l ∈ db.accountToAppsMap.filter
                (fun l => !(l.accountId == target.id && l.appId == appId))
              apply List.mem_filter.mpr
              refine ⟨hlm, ?_⟩
              simp [hlb, hne2]
            · show keysNodup ((cmDelete app.collaborators email).map stripEntry)
              exact keysNodup_map stripEntry_keyFixed _ (keysNodup_delete _ _ hNapp)
            · show ownerCount ((cmDelete app.collaborators email).map stripEntry) = 1
              rw [ownerCount_map stripEntry_permFixed, ownerCount_delete _ _ hNapp hown]
              exact hOapp
            · show ∀ p ∈ (cmDelete app.collaborators email).map stripEntry,
                entryBacked (removeAppPointer db target.id appId)
                  (removeIsCurrentAccountProperty
                    { app with collaborators := cmDelete app.collaborators email }).id p
              apply backed_map stripEntry_keyFixed stripEntry_accountIdFixed
              intro q hq
              obtain ⟨hacct', ⟨l, hlm, hla, hlb⟩⟩ := hBapp q (List.mem_of_mem_filter hq)
              refine ⟨hacct', ⟨l, ?_, hla, ?_⟩⟩
              · show l ∈ db.accountToAppsMap.filter
                  (fun l => !(l.accountId == target.id && l.appId == appId))
                apply List.mem_filter.mpr
                refine ⟨hlm, ?_⟩
                have hqne : q.2.accountId ≠ target.id := by
                  have := hsurv q.1 q.2 (by simpa using hq)
                  exact this
                simp [hla, hqne]
              · show l.appId = app.id
                rw [hlb, happid2]

/-- `addCollaborator` preserves the store invariant. -/
theorem addCollaborator_inv {db db2 : DB} {accountId appId email : String} {u : Unit}
    (hInv : Inv db) (h : addCollaborator db accountId appId email = (Except.ok u, db2)) :
    Inv db2 := by
  obtain ⟨haccOk, happs⟩ := hInv
  cases hpoll : isPrototypePollutionKey email with
  | true => simp [addCollaborator, hpoll] at h
  | false =>
    cases happ : getApp db accountId appId with
    | error e => simp [addCollaborator, hpoll, happ] at h
    | ok app =>
      cases hguard : (isCollaborator app.collaborators email || isOwner app.collaborators email) with
      | true => simp [addCollaborator, hpoll, happ, hguard] at h
      | false =>
        cases htgt : getAccountByEmail db (toLowerCase email) with
        | error e => simp [addCollaborator, hpoll, happ, hguard, htgt] at h
        | ok target =>
          cases hptr : addAppPointer db target.id app.id with
          | mk r db3 =>
            have hmain : (match addAppPointer db target.id app.id with
              | (Except.error e, db4) => (Except.error e, db4)
              | (Except.ok _, db4) => updateApp db4 accountId
                  { app with collaborators := cmSet app.collaborators target.email { accountId := target.id, permission := Permission.Collaborator, isCurrentAccount := none } } true) = (Except.ok u, db2) := by
              simpa [addCollaborator, hpoll, happ, hguard, htgt] using h
            rw [hptr] at hmain
            cases r with
            | error e => simp at hmain
            | ok v =>
              obtain ⟨hdup, hdb3⟩ := addAppPointer_ok hptr
              subst hdb3
              obtain ⟨account0, stored, hacc0, hfind, happeq, hstid⟩ := getApp_inv happ
              have hstOk : AppOk db stored := happs stored (List.mem_of_find?_eq_some hfind)
              obtain ⟨hNa, hOa, hBa⟩ := appOk_annotate db stored account0.id hstOk
              have hNapp : keysNodup app.collaborators := by
                rw [happeq]
                exact hNa
              have hOapp : ownerCount app.collaborators = 1 := by
                rw [happeq]
                exact hOa
              have hBapp : ∀ p ∈ app.collaborators, entryBacked db stored.id p := by
                rw [happeq]
                exact hBa
              have happid2 : app.id = stored.id := by
                rw [happeq]
                rfl
              obtain ⟨htmem, htemail⟩ := getAccountByEmail_mem htgt
              -- the target's email keys no entry: otherwise the invariant
              -- would force a visibility link that the successful primary-key
              -- insert just excluded
              have habs : cmGet app.collaborators target.email = none := by
                cases hg : cmGet app.collaborators target.email with
                | none => rfl
                | some c =>
                  exfalso
                  have hmem := cmGet_some_mem hg
                  obtain ⟨⟨acct', hacct', he', hi'⟩, ⟨l, hlm, hla, hlb⟩⟩ := hBapp _ hmem
                  have he2 : acct'.email = target.email := he'
                  have hi2 : acct'.id = c.accountId := hi'
                  have hsame : acct' = target :=
                    List.inj_on_of_nodup_map haccOk.2.1 hacct' htmem he2
                  have hcid : c.accountId = target.id := by rw [← hi2, hsame]
                  have hall : ∀ x ∈ db.accountToAppsMap,
                      x.accountId = target.id → ¬ x.appId = app.id := by
                    simpa using hdup
                  have hla2 : l.accountId = target.id := by rw [hla, hcid]
                  have hlb2 : l.appId = app.id := by rw [hlb, happid2]
                  exact hall l hlm hla2 hlb2
              have hset : cmSet app.collaborators target.email
                  { accountId := target.id, permission := Permission.Collaborator,
                    isCurrentAccount := none } =
                  app.collaborators ++ [(target.email,
                    { accountId := target.id, permission := Permission.Collaborator,
                      isCurrentAccount := none })] := cmSet_absent _ _ _ habs
              rw [updateApp_ok hmain]
              apply inv_write_app
              · unfold AccountsOk
                exact haccOk
              · intro a ha hne
                refine appOk_of_fields db _ ?_ ?_ a (happs a ha)
                · rfl
                · intro l hl
                  exact List.mem_append_left _ hl
              · show keysNodup ((cmSet app.collaborators target.email
                  { accountId := target.id, permission := Permission.Collaborator,
                    isCurrentAccount := none }).map stripEntry)
                rw [hset]
                exact keysNodup_map stripEntry_keyFixed _
                  (keysNodup_append_fresh _ _ _ hNapp (cmGet_none_find? habs))
              · show ownerCount ((cmSet app.collaborators target.email
                  { accountId := target.id, permission := Permission.Collaborator,
                    isCurrentAccount := none }).map stripEntry) = 1
                rw [hset, ownerCount_map stripEntry_permFixed, ownerCount_append]
                simp [hOapp]
              · apply backed_map stripEntry_keyFixed stripEntry_accountIdFixed
                rw [hset]
                intro q hq
                rcases List.mem_append.mp hq with hqold | hqnew
                · obtain ⟨⟨acct', hacct', he', hi'⟩, ⟨l, hlm, hla, hlb⟩⟩ := hBapp q hqold
                  refine ⟨⟨acct', hacct', he', hi'⟩, ⟨l, List.mem_append_left _ hlm, hla, ?_⟩⟩
                  show l.appId = app.id
                  rw [hlb, happid2]
                · have hq2 : q = (target.email,
                      { accountId := target.id, permission := Permission.Collaborator,
                        isCurrentAccount := none }) := by simpa using hqnew
                  subst hq2
                  refine ⟨⟨target, htmem, rfl, rfl⟩, ?_⟩
                  refine ⟨{ accountId := target.id, appId := ({ app with
                      collaborators := cmSet app.collaborators target.email
                        { accountId := target.id, permission := Permission.Collaborator,
                          isCurrentAccount := none } } : App).id },
                    List.mem_append_right _ (by simp), rfl, rfl⟩

/-- `transferApp` preserves the store invariant when the issuing account's
email holds the `Owner` entry of the target app. -/
theorem transferApp_inv {db db2 : DB} {accountId appId email : String} {u : Unit}
    (hInv : Inv db)
    (hiss : ownerIssuedOp db (Op.transferApp accountId appId email) = true)
    (h : transferApp db accountId appId email = (Except.ok u, db2)) : Inv db2 := by
  obtain ⟨haccOk, happs⟩ := hInv
  cases hpoll : isPrototypePollutionKey email with
  | true => simp [transferApp, hpoll] at h
  | false =>
    cases happ : getApp db accountId appId with
    | error e => simp [transferApp, hpoll, happ] at h
    | ok app =>
      cases hacc : getAccount db accountId with
      | error e => simp [transferApp, hpoll, happ, hacc] at h
      | ok account =>
        cases htgt : getAccountByEmail db (toLowerCase email) with
        | error e => simp [transferApp, hpoll, happ, hacc, htgt] at h
        | ok target =>
          cases hown : isOwner app.collaborators target.email with
          | true => simp [transferApp, hpoll, happ, hacc, htgt, hown] at h
          | false =>
            cases hreq : cmGet app.collaborators account.email with
            | none => simp [transferApp, hpoll, happ, hacc, htgt, hown, hreq] at h
            | some re =>
              obtain ⟨account0, stored, hacc0, hfind, happeq, hstid⟩ := getApp_inv happ
              have haccsame : account0 = account := by
                rw [hacc0] at hacc
                injection hacc
              subst haccsame
              have hstOk : AppOk db stored := happs stored (List.mem_of_find?_eq_some hfind)
              obtain ⟨hNa, hOa, hBa⟩ := appOk_annotate db stored account0.id hstOk
              have hNapp : keysNodup app.collaborators := by
                rw [happeq]
                exact hNa
              have hOapp : ownerCount app.collaborators = 1 := by
                rw [happeq]
                exact hOa
              have hBapp : ∀ p ∈ app.collaborators, entryBacked db stored.id p := by
                rw [happeq]
                exact hBa
              have happid2 : app.id = stored.id := by
                rw [happeq]
                rfl
              obtain ⟨htmem, htemail⟩ := getAccountByEmail_mem htgt
              -- the owner-issued hypothesis: the requester's entry is the Owner
              have hissOwner : isOwner app.collaborators account0.email = true := by
                simp only [ownerIssuedOp, hacc0, hfind] at hiss
                rw [happeq]
                have : isOwner (addIsCurrentAccountProperty stored account0.id).collaborators
                    account0.email = isOwner stored.collaborators account0.email := by
                  show isOwner (stored.collaborators.map (annotateEntry account0.id))
                      account0.email = _
                  exact isOwner_map_eq (annotateEntry_keyFixed account0.id)
                    (annotateEntry_permFixed account0.id) _ _
                rw [this]
                exact hiss
              have hreOwner : re.permission = Permission.Owner := by
                unfold isOwner at hissOwner
                rw [hreq] at hissOwner
                simpa using hissOwner
              -- after the demotion the map has no owner at all
              have hm1zero : ownerCount (cmSetPermission app.collaborators account0.email
                  Permission.Collaborator) = 0 := by
                have := ownerCount_demote app.collaborators account0.email re hNapp hreq hreOwner
                omega
              have hNm1 : keysNodup (cmSetPermission app.collaborators account0.email
                  Permission.Collaborator) :=
                keysNodup_map (setPermEntry_keyFixed _ _) _ hNapp
              have hBm1 : ∀ p ∈ cmSetPermission app.collaborators account0.email
                  Permission.Collaborator, entryBacked db stored.id p :=
                backed_map (setPermEntry_keyFixed _ _) (setPermEntry_accountIdFixed _ _)
                  db stored.id _ hBapp
              cases hcol : isCollaborator (cmSetPermission app.collaborators account0.email
                  Permission.Collaborator) target.email with
              | true =>
                -- the target is promoted in place
                have hupd : updateApp db accountId
                    { app with collaborators := cmSetPermission (cmSetPermission app.collaborators account0.email Permission.Collaborator) target.email Permission.Owner } true =
                    (Except.ok u, db2) := by
                  simpa [transferApp, hpoll, happ, hacc, htgt, hown, hreq, hcol] using h
                have hc2 : ∃ c2, cmGet (cmSetPermission app.collaborators account0.email
                    Permission.Collaborator) target.email = some c2 ∧
                    c2.permission = Permission.Collaborator := by
                  unfold isCollaborator at hcol
                  cases hg : cmGet (cmSetPermission app.collaborators account0.email
                      Permission.Collaborator) target.email with
                  | none => rw [hg] at hcol; cases hcol
                  | some c2 =>
                    rw [hg] at hcol
                    exact ⟨c2, rfl, by simpa using hcol⟩
                obtain ⟨c2, hc2get, hc2perm⟩ := hc2
                rw [updateApp_ok hupd]
                apply inv_write_app
                · exact haccOk
                · intro a ha hne
                  exact happs a ha
                · show keysNodup ((cmSetPermission (cmSetPermission app.collaborators
                    account0.email Permission.Collaborator) target.email Permission.Owner).map
                      stripEntry)
                  exact keysNodup_map stripEntry_keyFixed _
                    (keysNodup_map (setPermEntry_keyFixed _ _) _ hNm1)
                · show ownerCount ((cmSetPermission (cmSetPermission app.collaborators
                    account0.email Permission.Collaborator) target.email Permission.Owner).map
                      stripEntry) = 1
                  rw [ownerCount_map stripEntry_permFixed]
                  rw [ownerCount_promote _ _ c2 hNm1 hc2get (by rw [hc2perm]; simp)]
                  rw [hm1zero]
                · apply backed_map stripEntry_keyFixed stripEntry_accountIdFixed
                  have := backed_map (setPermEntry_keyFixed target.email Permission.Owner)
                    (setPermEntry_accountIdFixed target.email Permission.Owner)
                    db stored.id _ hBm1
                  intro q hq
                  have hb := this q hq
                  unfold entryBacked at hb ⊢
                  refine ⟨hb.1, ?_⟩
                  obtain ⟨l, hlm, hla, hlb⟩ := hb.2
                  refine ⟨l, hlm, hla, ?_⟩
                  show l.appId = app.id
                  rw [hlb, happid2]
              | false =>
                -- a fresh Owner entry is inserted and a link fired
                have hupd : updateApp (addAppPointer db target.id app.id).2 accountId
                    { app with collaborators := cmSet (cmSetPermission app.collaborators account0.email Permission.Collaborator) target.email { accountId := target.id, permission := Permission.Owner, isCurrentAccount := none } } true =
                    (Except.ok u, db2) := by
                  simpa [transferApp, hpoll, happ, hacc, htgt, hown, hreq, hcol] using h
                -- the target's email is absent from the demoted map
                have habs : cmGet (cmSetPermission app.collaborators account0.email
                    Permission.Collaborator) target.email = none := by
                  by_cases heq : target.email = account0.email
                  · exfalso
                    rw [heq] at hcol
                    rw [show isCollaborator (cmSetPermission app.collaborators account0.email
                        Permission.Collaborator) account0.email = true from ?_] at hcol
                    · cases hcol
                    · unfold isCollaborator
                      rw [cmGet_setPerm_self, hreq]
                      simp
                  · rw [cmGet_setPerm_other _ _ _ _ heq]
                    cases hg : cmGet app.collaborators target.email with
                    | none => rfl
                    | some c =>
                      exfalso
                      cases hperm : c.permission with
                      | Owner =>
                        unfold isOwner at hown
                        rw [hg] at hown
                        simp [hperm] at hown
                      | Collaborator =>
                        unfold isCollaborator at hcol
                        rw [cmGet_setPerm_other _ _ _ _ heq, hg] at hcol
                        simp [hperm] at hcol
                have hset : cmSet (cmSetPermission app.collaborators account0.email
                    Permission.Collaborator) target.email
                    { accountId := target.id, permission := Permission.Owner,
                      isCurrentAccount := none } =
                    cmSetPermission app.collaborators account0.email Permission.Collaborator ++
                      [(target.email, { accountId := target.id, permission := Permission.Owner, isCurrentAccount := none })] :=
                  cmSet_absent _ _ _ habs
                rw [updateApp_ok hupd]
                apply inv_write_app
                · unfold AccountsOk
                  rw [addAppPointer_accounts]
                  exact haccOk
                · intro a ha hne
                  refine appOk_of_fields db _ ?_ ?_ a (happs a (by
                    rw [addAppPointer_apps] at ha
                    exact ha))
                  · exact addAppPointer_accounts db target.id app.id
                  · intro l hl
                    exact addAppPointer_super db target.id app.id l hl
                · show keysNodup ((cmSet (cmSetPermission app.collaborators account0.email
                    Permission.Collaborator) target.email
                    { accountId := target.id, permission := Permission.Owner,
                      isCurrentAccount := none }).map stripEntry)
                  rw [hset]
                  exact keysNodup_map stripEntry_keyFixed _
                    (keysNodup_append_fresh _ _ _ hNm1 (cmGet_none_find? habs))
                · show ownerCount ((cmSet (cmSetPermission app.collaborators account0.email
                    Permission.Collaborator) target.email
                    { accountId := target.id, permission := Permission.Owner,
                      isCurrentAccount := none }).map stripEntry) = 1
                  rw [hset, ownerCount_map stripEntry_permFixed, ownerCount_append]
                  simp [hm1zero]
                · apply backed_map stripEntry_keyFixed stripEntry_accountIdFixed
                  rw [hset]
                  intro q hq
                  rcases List.mem_append.mp hq with hqold | hqnew
                  · obtain ⟨⟨acct', hacct', he', hi'⟩, ⟨l, hlm, hla, hlb⟩⟩ := hBm1 q hqold
                    refine ⟨⟨acct', by
                        rw [addAppPointer_accounts]
                        exact hacct', he', hi'⟩,
                      ⟨l, addAppPointer_super db target.id app.id l hlm, hla, ?_⟩⟩
                    show l.appId = app.id
                    rw [hlb, happid2]
                  · have hq2 : q = (target.email,
                        { accountId := target.id, permission := Permission.Owner,
                          isCurrentAccount := none }) := by simpa using hqnew
                    subst hq2
                    refine ⟨⟨target, by
                        rw [addAppPointer_accounts]
                        exact htmem, rfl, rfl⟩, ?_⟩
                    obtain ⟨l, hlm, hla, hlb⟩ := addAppPointer_link db target.id app.id
                    exact ⟨l, hlm, hla, hlb⟩

/-- A single successful call preserves the store invariant, provided that a
`transferApp` call is owner-issued. -/
theorem applyOp_inv {db db2 : DB} {op : Op} {u : Unit}
    (hInv : Inv db) (hiss : ownerIssuedOp db op = true)
    (h : applyOp db op = (Except.ok u, db2)) : Inv db2 := by
  cases op with
  | addApp accountId app =>
    cases hadd : addApp db accountId app with
    | mk r db3 =>
      cases r with
      | error e => simp [applyOp, hadd] at h
      | ok retApp =>
        have hdb : db3 = db2 := by
          have h2 := h
          simp [applyOp, hadd] at h2
          exact h2
        subst hdb
        exact addApp_inv hInv hadd
  | transferApp accountId appId email => exact transferApp_inv hInv hiss h
  | addCollaborator accountId appId email => exact addCollaborator_inv hInv h
  | removeCollaborator accountId appId email => exact removeCollaborator_inv hInv h

/-- Running a sequence of calls that all resolve preserves the store
invariant, provided every `transferApp` of the sequence runs owner-issued. -/
theorem runOps_inv {ops : List Op} : ∀ {db db2 : DB},
    Inv db → ownerIssuedTransfers db ops = true →
    runOps db ops = Except.ok db2 → Inv db2 := by
  induction ops with
  | nil =>
    intro db db2 hInv hiss h
    simp [runOps] at h
    exact h ▸ hInv
  | cons op rest ih =>
    intro db db2 hInv hiss h
    cases hap : applyOp db op with
    | mk r db3 =>
      cases r with
      | error e => simp [runOps, hap] at h
      | ok u =>
        simp only [ownerIssuedTransfers, hap, Bool.and_eq_true] at hiss
        have h2 : runOps db3 rest = Except.ok db2 := by
          simp only [runOps, hap] at h
          exact h
        exact ih (applyOp_inv hInv hiss.1 hap) hiss.2 h2

/-- C1 counterexample: the claim's "regardless of which account (collaborator
or owner) issued the operation" fails.  On `storeABC`, account `a2` is only a
Collaborator of `app1`, so the transfer it issues is not owner-issued; the
call nevertheless succeeds, and the resulting store's only app carries TWO
`Owner` entries (`a@x.com` is never demoted, `c@x.com` is inserted as a fresh
Owner). -/
theorem c1_counterexample :
    ownerIssuedOp storeABC (Op.transferApp "a2" "app1" "c@x.com") = false ∧
    (runOps storeABC [Op.transferApp "a2" "app1" "c@x.com"]).toOption.map
      (fun db2 => db2.apps.map (fun a => ownerCount a.collaborators)) = some [2] := by
  decide

/-- C1 (amended): for every store satisfying the reachable-state
well-formedness invariant and every sequence of `addApp` / `transferApp` /
`addCollaborator` / `removeCollaborator` calls that all succeed, if every
`transferApp` of the sequence is issued by the account whose email keys the
target app's `Owner` entry at the moment the call runs, then after the
sequence every app's collaborator map contains exactly one `Owner` entry.
The issuer restriction is necessary: a collaborator-issued transfer produces
a second `Owner` (see the counterexample). -/
theorem c1_owner_uniqueness {db db2 : DB} {ops : List Op}
    (hInv : Inv db)
    (hiss : ownerIssuedTransfers db ops = true)
    (h : runOps db ops = Except.ok db2) :
    ∀ app ∈ db2.apps, ownerCount app.collaborators = 1 := by
  intro app hmem
  exact ((runOps_inv hInv hiss h).2 app hmem).2.1

/-- C1 witness: on the two-account store, `a1` creates an app, adds `b@x.com`
as collaborator and then (as the current owner) transfers to `b@x.com`; the
run succeeds, every transfer is owner-issued, and the theorem yields that the
resulting app has exactly one `Owner` entry. -/
theorem c1_witness :
    Inv storePair ∧ ownerIssuedTransfers storePair scenarioOps = true ∧
    runOps storePair scenarioOps = Except.ok scenarioOut ∧
    scenarioApp ∈ scenarioOut.apps ∧
    ownerCount scenarioApp.collaborators = 1 :=
  ⟨by decide, by decide, by decide, by decide,
   @c1_owner_uniqueness storePair scenarioOut scenarioOps
     (by decide) (by decide) (by decide) scenarioApp (by decide)⟩

end CodePushStorage
